import Mathlib

/-!
# Verification of the SWIMA software-inventory collector and the gmalg SM2 key exchange

Shallow embedding of `swima_collector.c` (identifier extraction, tag-stream
framing, filesystem tag walking, orchestration) and of
`gmalg_ec_diffie_hellman.c` (`set_private_key`).

Byte strings are modelled as `List Char` (one `Char` per byte of text).  The C
code scans NUL-terminated copies of its input (`strndup`/`strstr`/`strchr`),
so the effective search window of the extractor is the longest NUL-free
prefix of the first 1023 bytes; the embedding reproduces this with
`take 1023` followed by `takeWhile (· != nul)`.
-/

namespace Swima

/-- `status_t` values used by the collector (`SUCCESS`, `FAILED`, `NOT_FOUND`,
`NOT_SUPPORTED` from strongSwan's `status_t`). -/
inductive Status where
  | success
  | failed
  | notFound
  | notSupported
deriving Repr, DecidableEq

/-- Index of the first occurrence of `pat` in `s`, i.e. the offset computed by
C `strstr` (`strstr` returns the haystack itself for an empty needle). -/
def strstrIdx : List Char → List Char → Option Nat
  | [], pat => if pat.isEmpty then some 0 else none
  | c :: t, pat =>
    if pat.isPrefixOf (c :: t) then some 0
    else (strstrIdx t pat).map (· + 1)

/-- Index of the first occurrence of character `c` in `s` (C `strchr`). -/
def strchrIdx (s : List Char) (c : Char) : Option Nat :=
  strstrIdx s [c]

/-- The 7-character token `tagId="` searched by `extract_sw_id`. -/
def tagIdTok : List Char := "tagId=\"".data

/-- The 7-character token `regid="` searched by `extract_sw_id`. -/
def regidTok : List Char := "regid=\"".data

/-- The NUL byte terminating the `strndup` copy. -/
def nulChar : Char := '\x00'

/-- `extract_sw_id` (swima_collector.c, lines 86–134): copy at most 1023
bytes of the SWID tag (the copy is a C string, so it further ends at the
first NUL), locate `tagId="` and its closing quote, then from that closing
quote locate `regid="` and its closing quote, and return
`regid_value ++ "__" ++ tagid_value`.  `none` models `NOT_FOUND`. -/
def extract_sw_id (swid_tag : List Char) : Option (List Char) :=
  let tag := (swid_tag.take 1023).takeWhile (fun c => c != nulChar)
  match strstrIdx tag tagIdTok with
  | none => none
  | some i =>
    let tagid := tag.drop (i + 7)
    match strchrIdx tagid '"' with
    | none => none
    | some j =>
      let tagidVal := tagid.take j
      let pos := tagid.drop j
      match strstrIdx pos regidTok with
      | none => none
      | some k =>
        let regid := pos.drop (k + 7)
        match strchrIdx regid '"' with
        | none => none
        | some l => some (regid.take l ++ ['_', '_'] ++ tagidVal)

example : extract_sw_id "<Tag tagId=\"T1\" regid=\"R1\"/>".data = some "R1__T1".data := by
  decide

example : extract_sw_id "no tokens here".data = none := by decide

example : extract_sw_id [] = none := by decide

/-! ## Lemmas about `strstrIdx` -/

theorem strstrIdx_some (pat : List Char) :
    ∀ (s : List Char) (n : Nat), pat.isPrefixOf (s.drop n) = true →
      (∀ i < n, pat.isPrefixOf (s.drop i) = false) →
      strstrIdx s pat = some n := by
  intro s
  induction s with
  | nil =>
    intro n hp hn
    simp only [List.drop_nil] at hp
    have hpe : pat = [] := by
      cases pat with
      | nil => rfl
      | cons a t => simp [List.isPrefixOf] at hp
    cases n with
    | zero => simp [strstrIdx, hpe]
    | succ m =>
      exact absurd (hn 0 (Nat.succ_pos m)) (by simp [hpe, List.isPrefixOf])
  | cons c t ih =>
    intro n hp hn
    cases n with
    | zero =>
      simp only [List.drop_zero] at hp
      simp [strstrIdx, hp]
    | succ m =>
      have h0 : pat.isPrefixOf (c :: t) = false := by
        have := hn 0 (Nat.succ_pos m)
        simpa using this
      have hrec : strstrIdx t pat = some m := by
        apply ih m
        · simpa using hp
        · intro i hi
          have := hn (i + 1) (by omega)
          simpa using this
      simp [strstrIdx, h0, hrec]

theorem strstrIdx_none (pat : List Char) (hne : pat ≠ []) :
    ∀ (s : List Char), (∀ i < s.length, pat.isPrefixOf (s.drop i) = false) →
      strstrIdx s pat = none := by
  intro s
  induction s with
  | nil =>
    intro _
    simp [strstrIdx, List.isEmpty_iff, hne]
  | cons c t ih =>
    intro h
    have h0 : pat.isPrefixOf (c :: t) = false := by
      have := h 0 (by simp)
      simpa using this
    have hrec : strstrIdx t pat = none := by
      apply ih
      intro i hi
      have := h (i + 1) (by simp; omega)
      simpa using this
    simp [strstrIdx, h0, hrec]

/-- If `c` does not occur in `l`, then no position inside `l` starts an
occurrence of the single-character pattern `[c]` in `l ++ r`. -/
theorem singleton_not_prefix_in (c : Char) (l r : List Char) (hc : c ∉ l) :
    ∀ i < l.length, [c].isPrefixOf ((l ++ r).drop i) = false := by
  induction l with
  | nil => intro i hi; simp at hi
  | cons a t ih =>
    intro i hi
    cases i with
    | zero =>
      have hca : c ≠ a := fun h => hc (h ▸ List.mem_cons_self a t)
      simp [List.isPrefixOf, List.isEqv, hca]
    | succ m =>
      have hct : c ∉ t := fun h => hc (List.mem_cons_of_mem a h)
      have := ih hct m (by simpa using hi)
      simpa using this

theorem isPrefixOf_self_append (l r : List Char) : l.isPrefixOf (l ++ r) = true := by
  simp [ List.isPrefixOf_iff_prefix]

/-- An occurrence inside a prefix is an occurrence in the full list. -/
theorem isPrefixOf_drop_mono (pat a b : List Char) (i : Nat)
    (hab : a <+: b) (h : pat.isPrefixOf (a.drop i) = true) :
    pat.isPrefixOf (b.drop i) = true := by
  rw [ List.isPrefixOf_iff_prefix] at h ⊢
  exact h.trans (hab.drop i)

theorem takeWhile_ne_nul (l : List Char) (h : nulChar ∉ l) :
    l.takeWhile (fun c => c != nulChar) = l := by
  apply List.takeWhile_eq_self_iff.mpr
  intro a ha
  simp only [bne_iff_ne, ne_eq]
  exact fun he => h (he ▸ ha)

theorem drop_len_append (a b : List Char) (n : Nat) (h : n = a.length) :
    (a ++ b).drop n = b := by
  subst h; exact List.drop_left a b

theorem take_len_append (a b : List Char) (n : Nat) (h : n = a.length) :
    (a ++ b).take n = a := by
  subst h; exact List.take_left a b

/-- The effective search window of `extract_sw_id` equals the raw input when
the input fits in the 1023-byte cap and is NUL-free. -/
theorem window_eq_self (s : List Char) (hlen : s.length ≤ 1023)
    (hnul : nulChar ∉ s) :
    (s.take 1023).takeWhile (fun c => c != nulChar) = s := by
  rw [List.take_of_length_le hlen, takeWhile_ne_nul s hnul]

theorem singleton_isPrefixOf_cons (c : Char) (l : List Char) :
    [c].isPrefixOf (c :: l) = true := by
  simp [List.isPrefixOf]

/-- The well-formed tag text whose first `tagId="` occurrence starts at
`pre.length`: value `T`, closing quote, gap `mid`, `regid="`, value `R`,
closing quote, remainder `post`. -/
def tagShape (pre T mid R post : List Char) : List Char :=
  pre ++ (tagIdTok ++ (T ++ ('"' :: (mid ++ (regidTok ++ (R ++ ('"' :: post)))))))

/-- Success behaviour of `extract_sw_id`: on an input that contains
`tagId="` (first occurrence after `pre`), a quote-free value `T`, its
closing quote, then (first occurrence) `regid="`, a quote-free value `R`
and its closing quote, the extractor returns `R ++ "__" ++ T`. -/
theorem extract_sw_id_success (pre T mid R post : List Char)
    (hlen : (tagShape pre T mid R post).length ≤ 1023)
    (hnul : nulChar ∉ tagShape pre T mid R post)
    (hT : '"' ∉ T) (hR : '"' ∉ R)
    (hfirstTag : ∀ i < pre.length,
      tagIdTok.isPrefixOf ((tagShape pre T mid R post).drop i) = false)
    (hfirstReg : ∀ i < mid.length + 1,
      regidTok.isPrefixOf (('"' :: (mid ++ (regidTok ++ (R ++ ('"' :: post))))).drop i) = false) :
    extract_sw_id (tagShape pre T mid R post) = some (R ++ ['_', '_'] ++ T) := by
  unfold tagShape at *
  have e0 := window_eq_self _ hlen hnul
  have e1 : strstrIdx
      (pre ++ (tagIdTok ++ (T ++ ('"' :: (mid ++ (regidTok ++ (R ++ ('"' :: post))))))))
      tagIdTok = some pre.length := by
    apply strstrIdx_some _ _ _ _ hfirstTag
    rw [drop_len_append pre _ pre.length rfl]
    exact isPrefixOf_self_append _ _
  have e2 : (pre ++ (tagIdTok ++ (T ++ ('"' :: (mid ++ (regidTok ++ (R ++ ('"' :: post)))))))).drop
      (pre.length + 7) = T ++ ('"' :: (mid ++ (regidTok ++ (R ++ ('"' :: post))))) := by
    rw [← List.drop_drop 7 pre.length, drop_len_append pre _ pre.length rfl,
        drop_len_append tagIdTok _ 7 rfl]
  have e3 : strchrIdx (T ++ ('"' :: (mid ++ (regidTok ++ (R ++ ('"' :: post)))))) '"'
      = some T.length := by
    apply strstrIdx_some _ _ _ _ (singleton_not_prefix_in '"' T _ hT)
    rw [drop_len_append T _ T.length rfl]
    exact singleton_isPrefixOf_cons '"' _
  have e4 : (T ++ ('"' :: (mid ++ (regidTok ++ (R ++ ('"' :: post)))))).drop T.length
      = '"' :: (mid ++ (regidTok ++ (R ++ ('"' :: post)))) :=
    drop_len_append T _ T.length rfl
  have e5 : strstrIdx ('"' :: (mid ++ (regidTok ++ (R ++ ('"' :: post))))) regidTok
      = some (mid.length + 1) := by
    apply strstrIdx_some _ _ _ _ hfirstReg
    rw [show mid.length + 1 = mid.length + 1 from rfl, List.drop_succ_cons,
        drop_len_append mid _ mid.length rfl]
    exact isPrefixOf_self_append _ _
  have e6 : ('"' :: (mid ++ (regidTok ++ (R ++ ('"' :: post))))).drop (mid.length + 1 + 7)
      = R ++ ('"' :: post) := by
    rw [← List.drop_drop 7 (mid.length + 1), List.drop_succ_cons,
        drop_len_append mid _ mid.length rfl, drop_len_append regidTok _ 7 rfl]
  have e7 : strchrIdx (R ++ ('"' :: post)) '"' = some R.length := by
    apply strstrIdx_some _ _ _ _ (singleton_not_prefix_in '"' R _ hR)
    rw [drop_len_append R _ R.length rfl]
    exact singleton_isPrefixOf_cons '"' _
  have e8 : (R ++ ('"' :: post)).take R.length = R := take_len_append R _ R.length rfl
  have e9 : (T ++ ('"' :: (mid ++ (regidTok ++ (R ++ ('"' :: post)))))).take T.length = T :=
    take_len_append T _ T.length rfl
  simp only [extract_sw_id, e0, e1, e2, e3, e4, e5, e6, e7, e8, e9]

/-- If `tagId="` occurs nowhere in the input, extraction fails. -/
theorem extract_sw_id_no_tag (s : List Char)
    (h : ∀ i < s.length, tagIdTok.isPrefixOf (s.drop i) = false) :
    extract_sw_id s = none := by
  have hws : (s.take 1023).takeWhile (fun c => c != nulChar) <+: s :=
    ( List.takeWhile_prefix _).trans ( List.take_prefix _ _)
  have hwlen : ((s.take 1023).takeWhile (fun c => c != nulChar)).length ≤ s.length :=
    hws.length_le
  have hw : ∀ i < ((s.take 1023).takeWhile (fun c => c != nulChar)).length,
      tagIdTok.isPrefixOf (((s.take 1023).takeWhile (fun c => c != nulChar)).drop i) = false := by
    intro i hi
    cases hb : tagIdTok.isPrefixOf (((s.take 1023).takeWhile (fun c => c != nulChar)).drop i) with
    | false => rfl
    | true =>
      exfalso
      have hs := isPrefixOf_drop_mono tagIdTok _ s i hws hb
      rw [h i (lt_of_lt_of_le hi hwlen)] at hs
      exact absurd hs (by decide)
  have e1 : strstrIdx ((s.take 1023).takeWhile (fun c => c != nulChar)) tagIdTok = none :=
    strstrIdx_none tagIdTok (by decide) _ hw
  simp only [extract_sw_id, e1]

/-- If the first `tagId="` occurrence is never followed by a closing quote,
extraction fails. -/
theorem extract_sw_id_no_tag_quote (pre T : List Char)
    (hlen : (pre ++ (tagIdTok ++ T)).length ≤ 1023)
    (hnul : nulChar ∉ pre ++ (tagIdTok ++ T))
    (hT : '"' ∉ T)
    (hfirstTag : ∀ i < pre.length,
      tagIdTok.isPrefixOf ((pre ++ (tagIdTok ++ T)).drop i) = false) :
    extract_sw_id (pre ++ (tagIdTok ++ T)) = none := by
  have e0 := window_eq_self _ hlen hnul
  have e1 : strstrIdx (pre ++ (tagIdTok ++ T)) tagIdTok = some pre.length := by
    apply strstrIdx_some _ _ _ _ hfirstTag
    rw [drop_len_append pre _ pre.length rfl]
    exact isPrefixOf_self_append _ _
  have e2 : (pre ++ (tagIdTok ++ T)).drop (pre.length + 7) = T := by
    rw [← List.drop_drop 7 pre.length, drop_len_append pre _ pre.length rfl,
        drop_len_append tagIdTok _ 7 rfl]
  have e3 : strchrIdx T '"' = none := by
    apply strstrIdx_none ['"'] (by decide)
    have := singleton_not_prefix_in '"' T [] hT
    rwa [List.append_nil] at this
  simp only [extract_sw_id, e0, e1, e2, e3]

/-- If `regid="` never occurs after the closing quote of the `tagId` value,
extraction fails. -/
theorem extract_sw_id_no_reg (pre T mid : List Char)
    (hlen : (pre ++ (tagIdTok ++ (T ++ ('"' :: mid)))).length ≤ 1023)
    (hnul : nulChar ∉ pre ++ (tagIdTok ++ (T ++ ('"' :: mid))))
    (hT : '"' ∉ T)
    (hfirstTag : ∀ i < pre.length,
      tagIdTok.isPrefixOf ((pre ++ (tagIdTok ++ (T ++ ('"' :: mid)))).drop i) = false)
    (hnoReg : ∀ i < mid.length + 1,
      regidTok.isPrefixOf (('"' :: mid).drop i) = false) :
    extract_sw_id (pre ++ (tagIdTok ++ (T ++ ('"' :: mid)))) = none := by
  have e0 := window_eq_self _ hlen hnul
  have e1 : strstrIdx (pre ++ (tagIdTok ++ (T ++ ('"' :: mid)))) tagIdTok
      = some pre.length := by
    apply strstrIdx_some _ _ _ _ hfirstTag
    rw [drop_len_append pre _ pre.length rfl]
    exact isPrefixOf_self_append _ _
  have e2 : (pre ++ (tagIdTok ++ (T ++ ('"' :: mid)))).drop (pre.length + 7)
      = T ++ ('"' :: mid) := by
    rw [← List.drop_drop 7 pre.length, drop_len_append pre _ pre.length rfl,
        drop_len_append tagIdTok _ 7 rfl]
  have e3 : strchrIdx (T ++ ('"' :: mid)) '"' = some T.length := by
    apply strstrIdx_some _ _ _ _ (singleton_not_prefix_in '"' T _ hT)
    rw [drop_len_append T _ T.length rfl]
    exact singleton_isPrefixOf_cons '"' _
  have e4 : (T ++ ('"' :: mid)).drop T.length = '"' :: mid :=
    drop_len_append T _ T.length rfl
  have e5 : strstrIdx ('"' :: mid) regidTok = none := by
    apply strstrIdx_none regidTok (by decide)
    simpa using hnoReg
  simp only [extract_sw_id, e0, e1, e2, e3, e4, e5]

/-- If the `regid` value is never closed by a quote, extraction fails. -/
theorem extract_sw_id_no_reg_quote (pre T mid R : List Char)
    (hlen : (pre ++ (tagIdTok ++ (T ++ ('"' :: (mid ++ (regidTok ++ R)))))).length ≤ 1023)
    (hnul : nulChar ∉ pre ++ (tagIdTok ++ (T ++ ('"' :: (mid ++ (regidTok ++ R))))))
    (hT : '"' ∉ T) (hR : '"' ∉ R)
    (hfirstTag : ∀ i < pre.length,
      tagIdTok.isPrefixOf ((pre ++ (tagIdTok ++ (T ++ ('"' :: (mid ++ (regidTok ++ R)))))).drop i) = false)
    (hfirstReg : ∀ i < mid.length + 1,
      regidTok.isPrefixOf (('"' :: (mid ++ (regidTok ++ R))).drop i) = false) :
    extract_sw_id (pre ++ (tagIdTok ++ (T ++ ('"' :: (mid ++ (regidTok ++ R)))))) = none := by
  have e0 := window_eq_self _ hlen hnul
  have e1 : strstrIdx (pre ++ (tagIdTok ++ (T ++ ('"' :: (mid ++ (regidTok ++ R))))))
      tagIdTok = some pre.length := by
    apply strstrIdx_some _ _ _ _ hfirstTag
    rw [drop_len_append pre _ pre.length rfl]
    exact isPrefixOf_self_append _ _
  have e2 : (pre ++ (tagIdTok ++ (T ++ ('"' :: (mid ++ (regidTok ++ R)))))).drop
      (pre.length + 7) = T ++ ('"' :: (mid ++ (regidTok ++ R))) := by
    rw [← List.drop_drop 7 pre.length, drop_len_append pre _ pre.length rfl,
        drop_len_append tagIdTok _ 7 rfl]
  have e3 : strchrIdx (T ++ ('"' :: (mid ++ (regidTok ++ R)))) '"' = some T.length := by
    apply strstrIdx_some _ _ _ _ (singleton_not_prefix_in '"' T _ hT)
    rw [drop_len_append T _ T.length rfl]
    exact singleton_isPrefixOf_cons '"' _
  have e4 : (T ++ ('"' :: (mid ++ (regidTok ++ R)))).drop T.length
      = '"' :: (mid ++ (regidTok ++ R)) :=
    drop_len_append T _ T.length rfl
  have e5 : strstrIdx ('"' :: (mid ++ (regidTok ++ R))) regidTok
      = some (mid.length + 1) := by
    apply strstrIdx_some _ _ _ _ hfirstReg
    rw [List.drop_succ_cons, drop_len_append mid _ mid.length rfl]
    exact isPrefixOf_self_append _ _
  have e6 : ('"' :: (mid ++ (regidTok ++ R))).drop (mid.length + 1 + 7) = R := by
    rw [← List.drop_drop 7 (mid.length + 1), List.drop_succ_cons,
        drop_len_append mid _ mid.length rfl, drop_len_append regidTok _ 7 rfl]
  have e7 : strchrIdx R '"' = none := by
    apply strstrIdx_none ['"'] (by decide)
    have := singleton_not_prefix_in '"' R [] hR
    rwa [List.append_nil] at this
  simp only [extract_sw_id, e0, e1, e2, e3, e4, e5, e6, e7]

/-- C1: For every byte string within the 1023-byte search cap that contains
the token `tagId="` (first occurrence after `pre`) closed by a quote around
a quote-free value `T`, and after that closing quote the token `regid="`
closed by a quote around a quote-free value `R`, `extract_sw_id` succeeds
and returns `R ++ "__" ++ T`; for inputs missing the `tagId="` token, or
its closing quote, or the `regid="` token, or its closing quote, and for
the empty input, it fails with `NOT_FOUND` (`none`).  Inputs are NUL-free
text (the C scan works on a NUL-terminated copy). -/
theorem C1_extract_sw_id_spec :
    (∀ pre T mid R post : List Char,
      (tagShape pre T mid R post).length ≤ 1023 →
      nulChar ∉ tagShape pre T mid R post →
      '"' ∉ T → '"' ∉ R →
      (∀ i < pre.length,
        tagIdTok.isPrefixOf ((tagShape pre T mid R post).drop i) = false) →
      (∀ i < mid.length + 1,
        regidTok.isPrefixOf (('"' :: (mid ++ (regidTok ++ (R ++ ('"' :: post))))).drop i) = false) →
      extract_sw_id (tagShape pre T mid R post) = some (R ++ ['_', '_'] ++ T)) ∧
    (∀ s : List Char,
      (∀ i < s.length, tagIdTok.isPrefixOf (s.drop i) = false) →
      extract_sw_id s = none) ∧
    (∀ pre T : List Char,
      (pre ++ (tagIdTok ++ T)).length ≤ 1023 →
      nulChar ∉ pre ++ (tagIdTok ++ T) → '"' ∉ T →
      (∀ i < pre.length,
        tagIdTok.isPrefixOf ((pre ++ (tagIdTok ++ T)).drop i) = false) →
      extract_sw_id (pre ++ (tagIdTok ++ T)) = none) ∧
    (∀ pre T mid : List Char,
      (pre ++ (tagIdTok ++ (T ++ ('"' :: mid)))).length ≤ 1023 →
      nulChar ∉ pre ++ (tagIdTok ++ (T ++ ('"' :: mid))) → '"' ∉ T →
      (∀ i < pre.length,
        tagIdTok.isPrefixOf ((pre ++ (tagIdTok ++ (T ++ ('"' :: mid)))).drop i) = false) →
      (∀ i < mid.length + 1, regidTok.isPrefixOf (('"' :: mid).drop i) = false) →
      extract_sw_id (pre ++ (tagIdTok ++ (T ++ ('"' :: mid)))) = none) ∧
    (∀ pre T mid R : List Char,
      (pre ++ (tagIdTok ++ (T ++ ('"' :: (mid ++ (regidTok ++ R)))))).length ≤ 1023 →
      nulChar ∉ pre ++ (tagIdTok ++ (T ++ ('"' :: (mid ++ (regidTok ++ R))))) →
      '"' ∉ T → '"' ∉ R →
      (∀ i < pre.length,
        tagIdTok.isPrefixOf ((pre ++ (tagIdTok ++ (T ++ ('"' :: (mid ++ (regidTok ++ R)))))).drop i) = false) →
      (∀ i < mid.length + 1,
        regidTok.isPrefixOf (('"' :: (mid ++ (regidTok ++ R))).drop i) = false) →
      extract_sw_id (pre ++ (tagIdTok ++ (T ++ ('"' :: (mid ++ (regidTok ++ R)))))) = none) ∧
    extract_sw_id [] = none :=
  ⟨extract_sw_id_success, extract_sw_id_no_tag, extract_sw_id_no_tag_quote,
   extract_sw_id_no_reg, extract_sw_id_no_reg_quote, by decide⟩

/-- Witness for C1 at concrete inputs: a well-formed tag succeeds with
`"regid.org__T1"`, and an input with an unclosed `tagId` value fails. -/
theorem C1_extract_sw_id_spec_witness :
    extract_sw_id (tagShape "<Tag ".data "T1".data " ".data "regid.org".data "/>".data)
      = some ("regid.org".data ++ ['_', '_'] ++ "T1".data) ∧
    extract_sw_id ("x ".data ++ (tagIdTok ++ "T1 unclosed".data)) = none :=
  ⟨C1_extract_sw_id_spec.1 "<Tag ".data "T1".data " ".data "regid.org".data "/>".data
      (by decide) (by decide) (by decide) (by decide) (by decide) (by decide),
   C1_extract_sw_id_spec.2.2.1 "x ".data "T1 unclosed".data
      (by decide) (by decide) (by decide) (by decide)⟩

/-! ## Data model: software records -/

/-- `SOURCE_ID_GENERATOR` (swima_collector.c line 29). -/
def SOURCE_ID_GENERATOR : Nat := 1

/-- `SOURCE_ID_COLLECTOR` (swima_collector.c line 30). -/
def SOURCE_ID_COLLECTOR : Nat := 2

/-- A `swima_record_t`: record id, software identifier, locator, source id,
and the optional raw tag payload (`set_record`). -/
structure SwRecord where
  recordId : Nat
  swId : List Char
  locator : List Char
  sourceId : Nat
  rawTag : Option (List Char)
deriving Repr, DecidableEq

/-! ## Tag stream reader (`read_swid_tags`, lines 139–200)

`fgets(line, 8192, file)` returns the next chunk of the stream: up to and
including the first newline, or 8191 characters, whichever comes first.
The reader loops `fgets`, assembling chunks into a document buffer until a
boundary (an empty line whose preceding chunk ended in a newline) or the
end of the stream.  The recursions are expressed with an explicit fuel
argument; the wrappers supply fuel exceeding the stream length, which the
lemmas show is always sufficient since every iteration consumes at least
one character. -/

/-- One `fgets` chunk with buffer room `n`: stops after the first newline
or after `n` characters. -/
def takeLine : Nat → List Char → List Char
  | 0, _ => []
  | _ + 1, [] => []
  | n + 1, c :: t => if c = '\n' then [c] else c :: takeLine n t

/-- Inner loop of `read_swid_tags` (lines 151–171): assemble one document.
Returns the assembled buffer, the unread remainder of the stream, and the
`more_tags` flag (false once end-of-stream was hit). -/
def readDocF : Nat → List Char → Bool → List Char → List Char × List Char × Bool
  | 0, s, _, buf => (buf, s, false)
  | _ + 1, [], _, buf => (buf, [], false)
  | fuel + 1, c :: t, lastNl, buf =>
    let line := takeLine 8191 (c :: t)
    let rest := (c :: t).drop line.length
    if lastNl && (c == '\n') then (buf, rest, true)
    else readDocF fuel rest (line.getLast? == some '\n') (buf ++ line)

/-- Removal of a trailing newline from an assembled document (lines
176–180). -/
def stripNl (doc : List Char) : List Char :=
  if doc.getLast? == some '\n' then doc.dropLast else doc

/-- Processing of one assembled document (lines 174–195): documents of
length ≤ 1 are discarded; otherwise a trailing newline is stripped, the
identifier extracted (failure aborts with its status), and a Generator
record carrying the full document is appended. -/
def processDoc (doc : List Char) (acc : List SwRecord) : Status × List SwRecord :=
  if 1 < doc.length then
    match extract_sw_id (stripNl doc) with
    | none => (Status.notFound, acc)
    | some sw => (Status.success, acc ++ [⟨0, sw, [], SOURCE_ID_GENERATOR, some (stripNl doc)⟩])
  else (Status.success, acc)

/-- Outer loop of `read_swid_tags` (lines 149–197). -/
def readTagsF : Nat → List Char → List SwRecord → Status × List SwRecord
  | 0, _, acc => (Status.success, acc)
  | fuel + 1, s, acc =>
    if s.isEmpty then (Status.success, acc)
    else
      let r := readDocF s.length s true []
      let p := processDoc r.1 acc
      if p.1 = Status.success then
        if r.2.2 then readTagsF fuel r.2.1 p.2 else (Status.success, p.2)
      else p

/-- `read_swid_tags` on a whole generator output stream, starting from the
records already collected (`this->inventory`). -/
def read_swid_tags (s : List Char) (acc : List SwRecord) : Status × List SwRecord :=
  readTagsF (s.length + 1) s acc

/-! ## Identifier stream reader (`read_swid_tag_ids`, lines 205–232)

Modelled from the spec for the buffer size: `BUF_LEN` is defined outside
the given sources, and §4.2 specifies identifiers-only mode as "reads the
stream line by line; each line (terminator stripped) is itself a
software_id", so a line is read in full (no splitting cap). -/

/-- One full line: up to and including the first newline. -/
def takeLineAll (s : List Char) : List Char := takeLine s.length s

/-- Loop of `read_swid_tag_ids`: one Generator record per line, trailing
newline stripped, no raw payload, no discarding. -/
def readIdsF : Nat → List Char → List SwRecord → Status × List SwRecord
  | 0, _, acc => (Status.success, acc)
  | fuel + 1, s, acc =>
    if s.isEmpty then (Status.success, acc)
    else
      let line := takeLineAll s
      let rest := s.drop line.length
      let sw := if line.getLast? == some '\n' then line.dropLast else line
      readIdsF fuel rest (acc ++ [⟨0, sw, [], SOURCE_ID_GENERATOR, none⟩])

/-- `read_swid_tag_ids` on a whole generator output stream. -/
def read_swid_tag_ids (s : List Char) (acc : List SwRecord) : Status × List SwRecord :=
  readIdsF (s.length + 1) s acc

example :
    read_swid_tags "<x tagId=\"T\" regid=\"R\"/>\n\n<y tagId=\"U\" regid=\"S\"/>\n".data [] =
      (Status.success,
       [⟨0, "R__T".data, [], 1, some "<x tagId=\"T\" regid=\"R\"/>".data⟩,
        ⟨0, "S__U".data, [], 1, some "<y tagId=\"U\" regid=\"S\"/>".data⟩]) := by
  decide

example : read_swid_tags "\n".data [] = (Status.success, []) := by decide

example :
    read_swid_tag_ids "R__T\n\nR__U".data [] =
      (Status.success,
       [⟨0, "R__T".data, [], 1, none⟩, ⟨0, [], [], 1, none⟩,
        ⟨0, "R__U".data, [], 1, none⟩]) := by
  decide

/-! ## Framing lemmas for the full-tag reader -/

/-- No two consecutive newlines (i.e. no blank-line boundary) inside a
document. -/
def noNlNlB : List Char → Bool
  | a :: b :: t => (!(a == '\n' && b == '\n')) && noNlNlB (b :: t)
  | _ => true

theorem noNlNlB_tail (c : Char) (l : List Char) (h : noNlNlB (c :: l) = true) :
    noNlNlB l = true := by
  cases l with
  | nil => rfl
  | cons d t => exact (Bool.and_eq_true_iff.mp h).2

theorem noNlNlB_append_right (a b : List Char) (h : noNlNlB (a ++ b) = true) :
    noNlNlB b = true := by
  induction a with
  | nil => exact h
  | cons c t ih => exact ih (noNlNlB_tail c (t ++ b) h)

theorem noNlNl_adj (a : List Char) (c : Char) (l : List Char)
    (h : noNlNlB (a ++ c :: l) = true) (hlast : a.getLast? = some '\n') :
    ¬ c = '\n' := by
  induction a with
  | nil => simp at hlast
  | cons x t ih =>
    cases t with
    | nil =>
      simp only [List.getLast?_singleton, Option.some.injEq] at hlast
      intro hc
      subst hlast hc
      simp [noNlNlB] at h
    | cons y u =>
      have h' : noNlNlB ((y :: u) ++ c :: l) = true :=
        noNlNlB_tail x ((y :: u) ++ c :: l) h
      have hl' : (y :: u).getLast? = some '\n' := by
        rwa [List.getLast?_cons_cons] at hlast
      exact ih h' hl'

theorem takeLine_prefix (s : List Char) : ∀ n : Nat, takeLine n s <+: s := by
  induction s with
  | nil => intro n; cases n <;> simp [takeLine]
  | cons c t ih =>
    intro n
    cases n with
    | zero => simp [takeLine]
    | succ m =>
      simp only [takeLine]
      by_cases hc : c = '\n'
      · simp only [if_pos hc, hc]
        exact ⟨t, rfl⟩
      · simp only [if_neg hc]
        exact List.cons_prefix_cons.mpr ⟨rfl, ih m⟩

theorem takeLine_ne_nil (n : Nat) (c : Char) (t : List Char) :
    takeLine (n + 1) (c :: t) ≠ [] := by
  simp only [takeLine]
  by_cases hc : c = '\n' <;> simp [hc]

theorem takeLine_append_of_mem (u : List Char) (hm : '\n' ∈ u) :
    ∀ (n : Nat) (X : List Char), takeLine n (u ++ X) = takeLine n u := by
  induction u with
  | nil => simp at hm
  | cons c t ih =>
    intro n X
    cases n with
    | zero => simp [takeLine]
    | succ m =>
      simp only [List.cons_append, takeLine]
      by_cases hc : c = '\n'
      · simp [hc]
      · have hm' : '\n' ∈ t := by
          cases List.mem_cons.mp hm with
          | inl h => exact absurd h.symm hc
          | inr h => exact h
        simp [hc, ih hm' m X]

theorem takeLine_exact (body : List Char) (hb : '\n' ∉ body) :
    ∀ n : Nat, body.length + 1 ≤ n → takeLine n (body ++ ['\n']) = body ++ ['\n'] := by
  induction body with
  | nil =>
    intro n hn
    cases n with
    | zero => omega
    | succ m => simp [takeLine]
  | cons c t ih =>
    intro n hn
    cases n with
    | zero => omega
    | succ m =>
      have hc : c ≠ '\n' := fun h => hb (h ▸ List.mem_cons_self c t)
      have ht : '\n' ∉ t := fun h => hb (List.mem_cons_of_mem c h)
      simp only [List.cons_append, takeLine, if_neg hc]
      show c :: takeLine m (t ++ ['\n']) = c :: (t ++ ['\n'])
      rw [ih ht m (by simpa using hn)]

theorem takeLine_8191_nl (t : List Char) : takeLine 8191 ('\n' :: t) = ['\n'] := rfl

theorem takeLine_ne_nil' (n : Nat) (hn : n ≠ 0) (c : Char) (t : List Char) :
    takeLine n (c :: t) ≠ [] := by
  cases n with
  | zero => exact absurd rfl hn
  | succ m => exact takeLine_ne_nil m c t

/-- One unfolding step of `readDocF` on a nonempty stream. -/
theorem readDocF_cons (fuel : Nat) (c : Char) (t : List Char) (nl : Bool)
    (buf : List Char) :
    readDocF (fuel + 1) (c :: t) nl buf =
      if nl && (c == '\n') then (buf, (c :: t).drop (takeLine 8191 (c :: t)).length, true)
      else readDocF fuel ((c :: t).drop (takeLine 8191 (c :: t)).length)
        ((takeLine 8191 (c :: t)).getLast? == some '\n') (buf ++ takeLine 8191 (c :: t)) := rfl

/-- Scanning a document `u` that ends with a newline and contains no blank
line, followed by a blank boundary line and the remainder of the stream:
the inner loop assembles exactly `u`, consumes the boundary line, and
reports that more documents follow. -/
theorem readDocF_boundary :
    ∀ (fuel : Nat) (u rest buf : List Char) (nl : Bool),
      u.length + 1 ≤ fuel →
      noNlNlB u = true →
      (u = [] → nl = true) →
      (nl = true → u.head? ≠ some '\n') →
      (u ≠ [] → u.getLast? = some '\n') →
      readDocF fuel (u ++ '\n' :: rest) nl buf = (buf ++ u, rest, true) := by
  intro fuel
  induction fuel with
  | zero => intro u rest buf nl hf; omega
  | succ f ih =>
    intro u rest buf nl hf hnn h0 hh hl
    cases u with
    | nil =>
      have hnl := h0 rfl
      subst hnl
      rw [List.nil_append, readDocF_cons, if_pos (by simp), takeLine_8191_nl]
      simp
    | cons c t =>
      have hcne : (nl && (c == '\n')) = false := by
        cases nl with
        | false => rfl
        | true =>
          have hhc := hh rfl
          simp only [List.head?_cons, ne_eq, Option.some.injEq] at hhc
          simp [hhc]
      have hlast : (c :: t).getLast? = some '\n' := hl (by simp)
      have hmem : '\n' ∈ c :: t := List.mem_of_getLast?_eq_some hlast
      set L := takeLine 8191 (c :: t) with hLdef
      have hline : takeLine 8191 (c :: (t ++ '\n' :: rest)) = L := by
        rw [← List.cons_append, hLdef]
        exact takeLine_append_of_mem _ hmem 8191 _
      obtain ⟨u', hu'⟩ := takeLine_prefix (c :: t) 8191
      have hLne : L ≠ [] := takeLine_ne_nil' 8191 (by norm_num) c t
      have hLpos : 0 < L.length := List.length_pos.mpr hLne
      have hdrop : (c :: (t ++ '\n' :: rest)).drop L.length = u' ++ '\n' :: rest := by
        have hs : c :: (t ++ '\n' :: rest) = L ++ (u' ++ '\n' :: rest) := by
          rw [← List.cons_append, ← hu', List.append_assoc]
        rw [hs]
        exact drop_len_append _ _ _ rfl
      have hlen_eq : (c :: t).length = L.length + u'.length := by
        rw [← hu', List.length_append]
      have hnn' : noNlNlB u' = true := by
        rw [← hu'] at hnn
        exact noNlNlB_append_right _ _ hnn
      have h0' : u' = [] → (L.getLast? == some '\n') = true := by
        intro he
        subst he
        rw [List.append_nil] at hu'
        rw [hLdef, hu', hlast]
        simp
      have hh' : (L.getLast? == some '\n') = true → u'.head? ≠ some '\n' := by
        intro hb
        cases u' with
        | nil => simp
        | cons h1 t1 =>
          simp only [beq_iff_eq] at hb
          rw [← hu'] at hnn
          have := noNlNl_adj _ h1 t1 hnn hb
          simp only [List.head?_cons, ne_eq, Option.some.injEq]
          exact this
      have hl' : u' ≠ [] → u'.getLast? = some '\n' := by
        intro hne
        rw [← hu', List.getLast?_append_of_ne_nil _ hne] at hlast
        exact hlast
      have hf' : u'.length + 1 ≤ f := by omega
      rw [List.cons_append, readDocF_cons, if_neg (by simp [hcne]), hline, hdrop]
      rw [ih u' rest (buf ++ L) _ hf' hnn' h0' hh' hl']
      rw [List.append_assoc, hu']

/-- Scanning the final document of the stream (no boundary follows): the
inner loop assembles the whole remainder and reports end-of-stream. -/
theorem readDocF_eof :
    ∀ (fuel : Nat) (u buf : List Char) (nl : Bool),
      u.length ≤ fuel →
      noNlNlB u = true →
      (nl = true → u.head? ≠ some '\n') →
      readDocF fuel u nl buf = (buf ++ u, [], false) := by
  intro fuel
  induction fuel with
  | zero =>
    intro u buf nl hf hnn hh
    have : u = [] := List.eq_nil_of_length_eq_zero (by omega)
    subst this
    simp [readDocF]
  | succ f ih =>
    intro u buf nl hf hnn hh
    cases u with
    | nil => simp [readDocF]
    | cons c t =>
      have hcne : (nl && (c == '\n')) = false := by
        cases nl with
        | false => rfl
        | true =>
          have hhc := hh rfl
          simp only [List.head?_cons, ne_eq, Option.some.injEq] at hhc
          simp [hhc]
      set L := takeLine 8191 (c :: t) with hLdef
      obtain ⟨u', hu'⟩ := takeLine_prefix (c :: t) 8191
      have hLne : L ≠ [] := takeLine_ne_nil' 8191 (by norm_num) c t
      have hLpos : 0 < L.length := List.length_pos.mpr hLne
      have hdrop : (c :: t).drop L.length = u' := by
        rw [← hu']
        exact drop_len_append _ _ _ rfl
      have hlen_eq : (c :: t).length = L.length + u'.length := by
        rw [← hu', List.length_append]
      have hnn' : noNlNlB u' = true := by
        rw [← hu'] at hnn
        exact noNlNlB_append_right _ _ hnn
      have hh' : (L.getLast? == some '\n') = true → u'.head? ≠ some '\n' := by
        intro hb
        cases u' with
        | nil => simp
        | cons h1 t1 =>
          simp only [beq_iff_eq] at hb
          rw [← hu'] at hnn
          have := noNlNl_adj _ h1 t1 hnn hb
          simp only [List.head?_cons, ne_eq, Option.some.injEq]
          exact this
      have hf' : u'.length ≤ f := by omega
      rw [readDocF_cons, if_neg (by simp [hcne]), hdrop]
      rw [ih u' (buf ++ L) _ hf' hnn' hh']
      rw [List.append_assoc, hu']

/-! ## The reader on a stream of framed documents -/

/-- A stream holding the given documents separated by blank boundary
lines. -/
def joinDocs : List (List Char) → List Char
  | [] => []
  | [d] => d
  | d :: ds => d ++ '\n' :: joinDocs ds

/-- Sequential processing of a list of assembled documents: the first
failing document aborts with its status; earlier records remain. -/
def processDocs : List (List Char) → List SwRecord → Status × List SwRecord
  | [], acc => (Status.success, acc)
  | d :: ds, acc =>
    let p := processDoc d acc
    if p.1 = Status.success then processDocs ds p.2 else p

/-- Well-formed document list for blank-line framing: no document starts
with a newline (the reader would see an immediate boundary), none contains
a blank line, and every document except the last ends with a newline (the
boundary must follow a cleanly terminated line).  An empty document is
allowed in a non-final position (it renders as consecutive blank lines). -/
def docsOkB : List (List Char) → Bool
  | [] => true
  | [d] => (d.head? != some '\n') && noNlNlB d
  | d :: ds =>
    (d.isEmpty || ((d.head? != some '\n') && (d.getLast? == some '\n'))) &&
      noNlNlB d && docsOkB ds

/-- One unfolding step of the outer reader loop. -/
theorem readTagsF_succ (fuel : Nat) (s : List Char) (acc : List SwRecord) :
    readTagsF (fuel + 1) s acc =
      if s.isEmpty then (Status.success, acc)
      else
        if (processDoc (readDocF s.length s true []).1 acc).1 = Status.success then
          if (readDocF s.length s true []).2.2 then
            readTagsF fuel (readDocF s.length s true []).2.1
              (processDoc (readDocF s.length s true []).1 acc).2
          else (Status.success, (processDoc (readDocF s.length s true []).1 acc).2)
        else processDoc (readDocF s.length s true []).1 acc := rfl

/-- Master framing theorem: on a stream of well-formed documents separated
by blank-line boundaries, the full-tag reader equals the sequential
processing of exactly those documents, in stream order. -/
theorem readTagsF_joinDocs :
    ∀ (docs : List (List Char)) (fuel : Nat) (acc : List SwRecord),
      (joinDocs docs).length + 1 ≤ fuel →
      docs ≠ [] →
      docsOkB docs = true →
      readTagsF fuel (joinDocs docs) acc = processDocs docs acc := by
  intro docs
  induction docs with
  | nil => intro fuel acc _ hne _; exact absurd rfl hne
  | cons d ds ih =>
    intro fuel acc hf hne hok
    cases ds with
    | nil =>
      have hjd : joinDocs [d] = d := rfl
      rw [hjd] at hf ⊢
      obtain ⟨f, rfl⟩ : ∃ f, fuel = f + 1 := ⟨fuel - 1, by omega⟩
      rw [readTagsF_succ]
      by_cases hd : d = []
      · subst hd
        simp [processDocs, processDoc]
      · have hemp : ¬(d.isEmpty = true) := by simp [List.isEmpty_iff, hd]
        rw [if_neg hemp]
        have hok' : (d.head? != some '\n') = true ∧ noNlNlB d = true := by
          simpa [docsOkB, Bool.and_eq_true] using hok
        have hr : readDocF d.length d true [] = ([] ++ d, [], false) :=
          readDocF_eof d.length d [] true (le_refl _) hok'.2
            (fun _ => by simpa using hok'.1)
        rw [hr]
        simp only [List.nil_append]
        by_cases hp : (processDoc d acc).1 = Status.success
        · rw [if_pos hp]
          simp [processDocs, hp]
        · rw [if_neg hp]
          simp [processDocs, hp]
    | cons e es =>
      have hjd : joinDocs (d :: e :: es) = d ++ '\n' :: joinDocs (e :: es) := rfl
      rw [hjd] at hf ⊢
      obtain ⟨f, rfl⟩ : ∃ f, fuel = f + 1 := ⟨fuel - 1, by omega⟩
      have hok3 : (d.isEmpty || ((d.head? != some '\n') && (d.getLast? == some '\n'))) = true
          ∧ noNlNlB d = true ∧ docsOkB (e :: es) = true := by
        simpa [docsOkB, Bool.and_eq_true, and_assoc] using hok
      have hhead : true = true → d.head? ≠ some '\n' := by
        intro _
        rcases Bool.or_eq_true_iff.mp hok3.1 with hemp | hgl
        · rw [List.isEmpty_iff.mp hemp]; simp
        · simpa using (Bool.and_eq_true_iff.mp hgl).1
      have hlastc : d ≠ [] → d.getLast? = some '\n' := by
        intro hdn
        rcases Bool.or_eq_true_iff.mp hok3.1 with hemp | hgl
        · exact absurd (List.isEmpty_iff.mp hemp) hdn
        · simpa using (Bool.and_eq_true_iff.mp hgl).2
      have hslen : (d ++ '\n' :: joinDocs (e :: es)).length
          = d.length + 1 + (joinDocs (e :: es)).length := by
        simp [List.length_append]
        omega
      rw [readTagsF_succ]
      have hemp : ¬((d ++ '\n' :: joinDocs (e :: es)).isEmpty = true) := by
        simp [List.isEmpty_iff]
      rw [if_neg hemp]
      have hr : readDocF (d ++ '\n' :: joinDocs (e :: es)).length
          (d ++ '\n' :: joinDocs (e :: es)) true []
          = ([] ++ d, joinDocs (e :: es), true) :=
        readDocF_boundary _ d (joinDocs (e :: es)) [] true (by omega) hok3.2.1
          (fun _ => rfl) hhead hlastc
      rw [hr]
      simp only [List.nil_append]
      by_cases hp : (processDoc d acc).1 = Status.success
      · rw [if_pos hp]
        simp only [if_true]
        rw [ih f (processDoc d acc).2 (by omega) (by simp) hok3.2.2]
        simp [processDocs, hp]
      · rw [if_neg hp]
        simp [processDocs, hp]

/-- `read_swid_tags` on a framed stream. -/
theorem read_swid_tags_joinDocs (docs : List (List Char)) (acc : List SwRecord)
    (hne : docs ≠ []) (hok : docsOkB docs = true) :
    read_swid_tags (joinDocs docs) acc = processDocs docs acc :=
  readTagsF_joinDocs docs ((joinDocs docs).length + 1) acc (le_refl _) hne hok

/-- Processing one document only appends to the accumulated records. -/
theorem processDoc_shift (d : List Char) (acc : List SwRecord) :
    processDoc d acc = ((processDoc d []).1, acc ++ (processDoc d []).2) := by
  unfold processDoc
  by_cases h : 1 < d.length
  · rw [if_pos h, if_pos h]
    cases hx : extract_sw_id (stripNl d) with
    | none => simp
    | some sw => simp
  · rw [if_neg h, if_neg h]
    simp

/-- A document of length ≤ 1 is discarded silently. -/
theorem processDoc_small (d : List Char) (h : ¬ 1 < d.length) (acc : List SwRecord) :
    processDoc d acc = (Status.success, acc) := by
  unfold processDoc
  rw [if_neg h]

/-- A document of length > 1 whose identifier extracts successfully yields
exactly one Generator record carrying the stripped document. -/
theorem processDoc_big (d : List Char) (hlen : 1 < d.length)
    (hx : (extract_sw_id (stripNl d)).isSome = true) :
    processDoc d [] = (Status.success,
      [⟨0, (extract_sw_id (stripNl d)).getD [], [], SOURCE_ID_GENERATOR,
        some (stripNl d)⟩]) := by
  unfold processDoc
  rw [if_pos hlen]
  obtain ⟨sw, hsw⟩ := Option.isSome_iff_exists.mp hx
  rw [hsw]
  simp [hsw]

/-- A document of length > 1 whose identifier does not extract aborts with
`NOT_FOUND` and appends nothing. -/
theorem processDoc_fail (d : List Char) (hlen : 1 < d.length)
    (hx : extract_sw_id (stripNl d) = none) :
    processDoc d [] = (Status.notFound, []) := by
  unfold processDoc
  rw [if_pos hlen, hx]

/-- When every document processes successfully, sequential processing
appends the per-document records in order. -/
theorem processDocs_success (docs : List (List Char))
    (h : ∀ d ∈ docs, (processDoc d []).1 = Status.success) :
    ∀ acc, processDocs docs acc
      = (Status.success, acc ++ docs.flatMap fun d => (processDoc d []).2) := by
  induction docs with
  | nil => intro acc; simp [processDocs]
  | cons d ds ih =>
    intro acc
    have hd := h d (List.mem_cons_self d ds)
    unfold processDocs
    rw [processDoc_shift d acc]
    simp only [hd, if_pos rfl]
    rw [ih (fun x hx => h x (List.mem_cons_of_mem d hx)) (acc ++ (processDoc d []).2)]
    simp [List.flatMap_cons]

/-- The first failing document aborts processing with its status; records
of the earlier documents remain, and later documents are not processed. -/
theorem processDocs_abort (good : List (List Char)) (bad : List Char)
    (after : List (List Char))
    (h : ∀ d ∈ good, (processDoc d []).1 = Status.success)
    (hbad : (processDoc bad []).1 ≠ Status.success) :
    ∀ acc, processDocs (good ++ bad :: after) acc
      = ((processDoc bad []).1, acc ++ good.flatMap fun d => (processDoc d []).2) := by
  induction good with
  | nil =>
    intro acc
    simp only [List.nil_append]
    unfold processDocs
    rw [processDoc_shift bad acc]
    simp only [if_neg hbad]
    have h2 : (processDoc bad []).2 = [] := by
      unfold processDoc
      by_cases hl : 1 < bad.length
      · rw [if_pos hl]
        cases hx : extract_sw_id (stripNl bad) with
        | none => rfl
        | some sw =>
          exfalso
          apply hbad
          unfold processDoc
          rw [if_pos hl, hx]
      · rw [if_neg hl]
    rw [h2]
    simp
  | cons d ds ih =>
    intro acc
    have hd := h d (List.mem_cons_self d ds)
    rw [List.cons_append]
    unfold processDocs
    rw [processDoc_shift d acc]
    simp only [hd, if_pos rfl]
    rw [ih (fun x hx => h x (List.mem_cons_of_mem d hx)) (acc ++ (processDoc d []).2)]
    simp [List.flatMap_cons]

theorem flatMap_eq_nil_of (f : List Char → List SwRecord) :
    ∀ docs : List (List Char), (∀ d ∈ docs, f d = []) → docs.flatMap f = [] := by
  intro docs
  induction docs with
  | nil => intro _; rfl
  | cons d ds ih =>
    intro h
    rw [List.flatMap_cons, h d (List.mem_cons_self d ds), List.nil_append]
    exact ih (fun x hx => h x (List.mem_cons_of_mem d hx))

theorem flatMap_eq_map_of_singleton (f : List Char → List SwRecord)
    (g : List Char → SwRecord) :
    ∀ docs : List (List Char), (∀ d ∈ docs, f d = [g d]) →
      docs.flatMap f = docs.map g := by
  intro docs
  induction docs with
  | nil => intro _; rfl
  | cons d ds ih =>
    intro h
    rw [List.flatMap_cons, List.map_cons, h d (List.mem_cons_self d ds),
        ih (fun x hx => h x (List.mem_cons_of_mem d hx))]
    rfl

/-- C3: For every full-tag input stream consisting of N tag documents, each
extractable and of length > 1 byte, separated by blank-line boundaries (an
empty line following a cleanly terminated line), `read_swid_tags` produces
exactly N Generator records in stream order — one per document, whether or
not the final document ends with a trailing newline (the `docsOkB` framing
condition does not constrain the last document's ending) — and assembled
documents of length ≤ 1 byte are discarded silently and produce no
record. -/
theorem C3_read_swid_tags_framing :
    (∀ (docs : List (List Char)) (acc : List SwRecord),
      docs ≠ [] → docsOkB docs = true →
      (∀ d ∈ docs, 1 < d.length ∧ (extract_sw_id (stripNl d)).isSome = true) →
      read_swid_tags (joinDocs docs) acc =
        (Status.success,
         acc ++ docs.map fun d =>
           ⟨0, (extract_sw_id (stripNl d)).getD [], [], SOURCE_ID_GENERATOR,
            some (stripNl d)⟩)) ∧
    (∀ (docs : List (List Char)) (acc : List SwRecord),
      docs ≠ [] → docsOkB docs = true →
      (∀ d ∈ docs, d.length ≤ 1) →
      read_swid_tags (joinDocs docs) acc = (Status.success, acc)) := by
  constructor
  · intro docs acc hne hok h
    rw [read_swid_tags_joinDocs docs acc hne hok]
    rw [processDocs_success docs
        (fun d hd => by rw [processDoc_big d (h d hd).1 (h d hd).2]) acc]
    rw [flatMap_eq_map_of_singleton _ _ docs
        (fun d hd => by rw [processDoc_big d (h d hd).1 (h d hd).2])]
  · intro docs acc hne hok h
    rw [read_swid_tags_joinDocs docs acc hne hok]
    rw [processDocs_success docs
        (fun d hd => by rw [processDoc_small d (by have := h d hd; omega) []])]
    rw [flatMap_eq_nil_of _ docs
        (fun d hd => by rw [processDoc_small d (by have := h d hd; omega) []]),
      List.append_nil]

/-- Witness for C3: two documents, the second without a trailing newline,
yield exactly the two records in stream order. -/
theorem C3_read_swid_tags_framing_witness :
    read_swid_tags
      (joinDocs ["<a tagId=\"T\" regid=\"R\"/>\n".data, "<b tagId=\"U\" regid=\"S\"/>".data]) [] =
      (Status.success,
       [] ++ ["<a tagId=\"T\" regid=\"R\"/>\n".data, "<b tagId=\"U\" regid=\"S\"/>".data].map
         fun d =>
           ⟨0, (extract_sw_id (stripNl d)).getD [], [], SOURCE_ID_GENERATOR,
            some (stripNl d)⟩) :=
  C3_read_swid_tags_framing.1
    ["<a tagId=\"T\" regid=\"R\"/>\n".data, "<b tagId=\"U\" regid=\"S\"/>".data] []
    (by decide) (by decide) (by decide)

/-! ## The identifiers-only reader on a stream of lines -/

/-- One unfolding step of the identifier reader loop. -/
theorem readIdsF_succ (fuel : Nat) (s : List Char) (acc : List SwRecord) :
    readIdsF (fuel + 1) s acc =
      if s.isEmpty then (Status.success, acc)
      else readIdsF fuel (s.drop (takeLineAll s).length)
        (acc ++ [⟨0,
          if (takeLineAll s).getLast? == some '\n' then (takeLineAll s).dropLast
          else takeLineAll s, [], SOURCE_ID_GENERATOR, none⟩]) := rfl

/-- The identifier reader turns a stream of newline-terminated lines into
one Generator record per line, the terminator stripped, in order. -/
theorem readIdsF_lines :
    ∀ (lines : List (List Char)) (fuel : Nat) (acc : List SwRecord),
      lines.flatten.length + 1 ≤ fuel →
      (∀ l ∈ lines, l ≠ [] ∧ l.getLast? = some '\n' ∧ '\n' ∉ l.dropLast) →
      readIdsF fuel lines.flatten acc =
        (Status.success,
         acc ++ lines.map fun l => ⟨0, l.dropLast, [], SOURCE_ID_GENERATOR, none⟩) := by
  intro lines
  induction lines with
  | nil =>
    intro fuel acc hf _
    rw [List.flatten_nil]
    cases fuel with
    | zero => simp [readIdsF]
    | succ f =>
      rw [readIdsF_succ]
      simp
  | cons l ls ih =>
    intro fuel acc hf hl
    obtain ⟨hlne, hlast, hbody⟩ := hl l (List.mem_cons_self l ls)
    have hdecomp : l = l.dropLast ++ ['\n'] := by
      have h1 : l.dropLast ++ [l.getLast hlne] = l := List.dropLast_append_getLast hlne
      have h2 : l.getLast hlne = '\n' := by
        have := List.getLast?_eq_getLast l hlne
        rw [this] at hlast
        exact Option.some.inj hlast
      conv_lhs => rw [← h1]
      rw [h2]
    have hflat : (l :: ls).flatten = l.dropLast ++ '\n' :: ls.flatten := by
      rw [List.flatten_cons]
      conv_lhs => rw [hdecomp]
      rw [List.append_assoc]
      rfl
    rw [hflat] at hf ⊢
    obtain ⟨f, rfl⟩ : ∃ f, fuel = f + 1 := ⟨fuel - 1, by omega⟩
    rw [readIdsF_succ]
    have hemp : ¬((l.dropLast ++ '\n' :: ls.flatten).isEmpty = true) := by
      simp [List.isEmpty_iff]
    rw [if_neg hemp]
    have hlen : (l.dropLast ++ '\n' :: ls.flatten).length
        = l.dropLast.length + 1 + ls.flatten.length := by
      rw [List.length_append, List.length_cons]
      omega
    have hline : takeLineAll (l.dropLast ++ '\n' :: ls.flatten) = l.dropLast ++ ['\n'] := by
      unfold takeLineAll
      have hsplit : l.dropLast ++ '\n' :: ls.flatten
          = (l.dropLast ++ ['\n']) ++ ls.flatten := by
        rw [List.append_assoc]
        rfl
      rw [hsplit, takeLine_append_of_mem (l.dropLast ++ ['\n']) (by simp)]
      apply takeLine_exact l.dropLast hbody
      rw [← hsplit, hlen]
      omega
    rw [hline]
    have hdrop : (l.dropLast ++ '\n' :: ls.flatten).drop (l.dropLast ++ ['\n']).length
        = ls.flatten := by
      have hsplit : l.dropLast ++ '\n' :: ls.flatten
          = (l.dropLast ++ ['\n']) ++ ls.flatten := by
        rw [List.append_assoc]
        rfl
      rw [hsplit]
      exact drop_len_append _ _ _ rfl
    rw [hdrop]
    have hgl : ((l.dropLast ++ ['\n']).getLast? == some '\n') = true := by
      simp
    rw [if_pos hgl, List.dropLast_concat]
    rw [ih f _ (by omega) (fun x hx => hl x (List.mem_cons_of_mem l hx))]
    simp [List.append_assoc]

/-- C9: In identifiers-only stream mode, the reader creates exactly one
Generator `SwRecord` per input line with no discarding rule: the stream of
N newline-terminated lines yields exactly the N per-line records in order,
and a bare line terminator still produces a record whose `software_id` is
the empty string — unlike full-tag mode, which discards documents of
length ≤ 1 byte. -/
theorem C9_read_swid_tag_ids_per_line :
    (∀ (lines : List (List Char)) (acc : List SwRecord),
      (∀ l ∈ lines, l ≠ [] ∧ l.getLast? = some '\n' ∧ '\n' ∉ l.dropLast) →
      read_swid_tag_ids lines.flatten acc =
        (Status.success,
         acc ++ lines.map fun l => ⟨0, l.dropLast, [], SOURCE_ID_GENERATOR, none⟩)) ∧
    read_swid_tag_ids ['\n'] [] =
      (Status.success, [⟨0, [], [], SOURCE_ID_GENERATOR, none⟩]) ∧
    read_swid_tags ['\n'] [] = (Status.success, []) := by
  refine ⟨fun lines acc h => readIdsF_lines lines _ acc (le_refl _) h, by decide, by decide⟩

/-- Witness for C9: three lines, one of them blank, yield three records,
the blank line's record carrying the empty identifier. -/
theorem C9_read_swid_tag_ids_per_line_witness :
    read_swid_tag_ids ["R__T\n".data, "\n".data, "R__U\n".data].flatten [] =
      (Status.success,
       [] ++ ["R__T\n".data, "\n".data, "R__U\n".data].map
         fun l => ⟨0, l.dropLast, [], SOURCE_ID_GENERATOR, none⟩) :=
  C9_read_swid_tag_ids_per_line.1 ["R__T\n".data, "\n".data, "R__U\n".data] [] (by decide)

/-! ## Filesystem tag walker (`collect_tags`, lines 382–516)

The directory tree is modelled as a nested inductive: a directory entry is
either a regular file with its content or a subdirectory with its own
entries, enumerated in list order.  `chunk_map` succeeds on a regular file
with its full content and fails on a directory (mapping a directory fails,
which the code answers with `goto end`). -/

/-- The entry list of a directory, as the enumerator yields it: either
exhausted, or a regular file (name, content) followed by the remaining
entries, or a subdirectory (name, own entry list) followed by the
remaining entries.  (A single flat inductive — isomorphic to a list of
file/dir entries — so that all recursion is structural.) -/
inductive Forest where
  | nil : Forest
  | file : List Char → List Char → Forest → Forest
  | dir : List Char → Forest → Forest → Forest

/-- The fixed exclusion list `skip_directories` (lines 41–46). -/
def skip_directories : List (List Char) :=
  ["/usr/share/doc".data, "/usr/share/help".data, "/usr/share/icons".data,
   "/usr/share/gnome/help".data]

/-- The record locator (lines 498–499): the prefix of the current directory
path before the first occurrence of `/swidtag`, empty if absent. -/
def swLocator (path : List Char) : List Char :=
  match strstrIdx path "/swidtag".data with
  | some i => path.take i
  | none => []

/-- `collect_tags`: depth-first walk of a directory's entries.  Directories
on the exclusion list are skipped entirely; recursion passes
`mode || (name == "swidtag")`; after a successful recursion the entry falls
through to the file check, where mapping a directory whose name contains
`.swidtag` fails and aborts; in tag mode a file whose name contains
`.swidtag` is read and its identifier extracted (failure aborts the whole
walk, keeping earlier records); with a non-empty target set a
non-matching identifier is skipped; otherwise a Collector record is
appended, carrying the raw tag only in full-tag mode. -/
def collect_tags (swIdOnly : Bool) (targets : List (List Char)) :
    List Char → Forest → Bool → List SwRecord → Bool × List SwRecord
  | _, Forest.nil, _, acc => (true, acc)
  | path, Forest.dir name children es, mode, acc =>
    let abs := path ++ '/' :: name
    if abs ∈ skip_directories then
      collect_tags swIdOnly targets path es mode acc
    else
      let r := collect_tags swIdOnly targets abs children
        (mode || decide (name = "swidtag".data)) acc
      if r.1 = false then (false, r.2)
      else if mode = false then collect_tags swIdOnly targets path es mode r.2
      else if (strstrIdx name ".swidtag".data).isSome then (false, r.2)
      else collect_tags swIdOnly targets path es mode r.2
  | path, Forest.file name content es, mode, acc =>
    if mode = false then collect_tags swIdOnly targets path es mode acc
    else if (strstrIdx name ".swidtag".data).isSome = false then
      collect_tags swIdOnly targets path es mode acc
    else
      match extract_sw_id content with
      | none => (false, acc)
      | some swid =>
        if targets ≠ [] ∧ swid ∉ targets then
          collect_tags swIdOnly targets path es mode acc
        else
          collect_tags swIdOnly targets path es mode
            (acc ++ [⟨0, swid, swLocator path, SOURCE_ID_COLLECTOR,
                      if swIdOnly then none else some content⟩])

example :
    collect_tags false [] "root".data
      (Forest.dir "a".data
        (Forest.dir "swidtag".data
          (Forest.file "x.swidtag".data "<x tagId=\"T1\" regid=\"R\"/>".data Forest.nil)
          Forest.nil)
        (Forest.dir "b".data
          (Forest.file "y.swidtag".data "<y tagId=\"T2\" regid=\"R\"/>".data Forest.nil)
          Forest.nil))
      false [] =
    (true, [⟨0, "R__T1".data, "root/a".data, 2,
            some "<x tagId=\"T1\" regid=\"R\"/>".data⟩]) := by
  decide

/-- No directory anywhere in the forest is named exactly `swidtag`. -/
def noSwidtagDirB : Forest → Bool
  | Forest.nil => true
  | Forest.file _ _ es => noSwidtagDirB es
  | Forest.dir name children es =>
    (!decide (name = "swidtag".data)) && noSwidtagDirB children && noSwidtagDirB es

/-- While not in tag mode, regular files are never read: a walk started
outside tag mode over a forest containing no directory named `swidtag`
succeeds and produces no record, whatever the files contain. -/
theorem collect_tags_no_tag_mode :
    ∀ (entries : Forest) (swIdOnly : Bool) (targets : List (List Char))
      (path : List Char) (acc : List SwRecord),
      noSwidtagDirB entries = true →
      collect_tags swIdOnly targets path entries false acc = (true, acc) := by
  intro entries
  induction entries with
  | nil => intro swIdOnly targets path acc _; rfl
  | file name content es ih =>
    intro swIdOnly targets path acc h
    simp only [collect_tags, if_pos rfl]
    exact ih swIdOnly targets path acc h
  | dir name children es ihc ihes =>
    intro swIdOnly targets path acc h
    have h3 : (!decide (name = "swidtag".data)) = true ∧ noSwidtagDirB children = true
        ∧ noSwidtagDirB es = true := by
      simpa [noSwidtagDirB, Bool.and_eq_true, and_assoc] using h
    simp only [collect_tags]
    by_cases hskip : path ++ '/' :: name ∈ skip_directories
    · rw [if_pos hskip]
      exact ihes swIdOnly targets path acc h3.2.2
    · rw [if_neg hskip]
      have hmode : (false || decide (name = "swidtag".data)) = false := by
        simp only [Bool.false_or]
        simpa using h3.1
      rw [hmode, ihc swIdOnly targets _ acc h3.2.1]
      simp only [if_neg (by simp : ¬((true, acc).1 = false)), if_pos rfl]
      exact ihes swIdOnly targets path acc h3.2.2

/-- C4: The tag-discovery mode passed into each recursive call equals the
parent's mode OR (the entry's name is exactly `swidtag`) — first conjunct,
the unfolding of the walk at a non-excluded subdirectory; once true, the
mode stays true for the whole subtree — second conjunct, at `mode = true`
the subtree is walked with mode `true` whatever the directory is called;
regular files encountered while not in tag mode are never read — third
conjunct; consequently for the tree `root/a/swidtag/x.swidtag`,
`root/b/y.swidtag` with empty targets, exactly one record (from
`x.swidtag`) is produced and `y.swidtag` is ignored — fourth conjunct. -/
theorem C4_collect_tags_mode_inheritance :
    (∀ (swIdOnly : Bool) (targets : List (List Char)) (path name : List Char)
       (children es : Forest) (mode : Bool) (acc : List SwRecord),
      path ++ '/' :: name ∉ skip_directories →
      collect_tags swIdOnly targets path (Forest.dir name children es) mode acc =
        (let r := collect_tags swIdOnly targets (path ++ '/' :: name) children
            (mode || decide (name = "swidtag".data)) acc
         if r.1 = false then (false, r.2)
         else if mode = false then collect_tags swIdOnly targets path es mode r.2
         else if (strstrIdx name ".swidtag".data).isSome then (false, r.2)
         else collect_tags swIdOnly targets path es mode r.2)) ∧
    (∀ (swIdOnly : Bool) (targets : List (List Char)) (path name : List Char)
       (children es : Forest) (acc : List SwRecord),
      path ++ '/' :: name ∉ skip_directories →
      collect_tags swIdOnly targets path (Forest.dir name children es) true acc =
        (let r := collect_tags swIdOnly targets (path ++ '/' :: name) children true acc
         if r.1 = false then (false, r.2)
         else if (strstrIdx name ".swidtag".data).isSome then (false, r.2)
         else collect_tags swIdOnly targets path es true r.2)) ∧
    (∀ (entries : Forest) (swIdOnly : Bool) (targets : List (List Char))
       (path : List Char) (acc : List SwRecord),
      noSwidtagDirB entries = true →
      collect_tags swIdOnly targets path entries false acc = (true, acc)) ∧
    collect_tags false [] "root".data
      (Forest.dir "a".data
        (Forest.dir "swidtag".data
          (Forest.file "x.swidtag".data "<x tagId=\"T1\" regid=\"R\"/>".data Forest.nil)
          Forest.nil)
        (Forest.dir "b".data
          (Forest.file "y.swidtag".data "<y tagId=\"T2\" regid=\"R\"/>".data Forest.nil)
          Forest.nil))
      false [] =
    (true, [⟨0, "R__T1".data, "root/a".data, SOURCE_ID_COLLECTOR,
            some "<x tagId=\"T1\" regid=\"R\"/>".data⟩]) := by
  refine ⟨?_, ?_, collect_tags_no_tag_mode, by decide⟩
  · intro swIdOnly targets path name children es mode acc h
    simp only [collect_tags]
    rw [if_neg h]
  · intro swIdOnly targets path name children es acc h
    simp only [collect_tags]
    rw [if_neg h]
    simp only [Bool.true_or]
    simp

/-- Witness for C4: the no-`swidtag`-directory conjunct at a concrete tree
whose file contents are not even well-formed tags (they are never read). -/
theorem C4_collect_tags_mode_inheritance_witness :
    collect_tags false [] "r".data
      (Forest.dir "a".data
        (Forest.file "x.swidtag".data "garbage".data Forest.nil) Forest.nil)
      false [] = (true, []) :=
  C4_collect_tags_mode_inheritance.2.2.1
    (Forest.dir "a".data
      (Forest.file "x.swidtag".data "garbage".data Forest.nil) Forest.nil)
    false [] "r".data [] (by decide)

/-! ## Target filtering and abort behaviour on a flat tag directory -/

/-- A flat directory of regular files. -/
def flatFiles : List (List Char × List Char) → Forest
  | [] => Forest.nil
  | (n, c) :: fs => Forest.file n c (flatFiles fs)

/-- The Collector record built for a tag file read at directory `path`. -/
def mkWalkRec (swIdOnly : Bool) (path content : List Char) : SwRecord :=
  ⟨0, (extract_sw_id content).getD [], swLocator path, SOURCE_ID_COLLECTOR,
   if swIdOnly then none else some content⟩

theorem filterMap_congr_mem (f g : List Char × List Char → Option SwRecord) :
    ∀ l : List (List Char × List Char), (∀ a ∈ l, f a = g a) →
      l.filterMap f = l.filterMap g := by
  intro l
  induction l with
  | nil => intro _; rfl
  | cons a as ih =>
    intro h
    rw [List.filterMap_cons, List.filterMap_cons, h a (List.mem_cons_self a as),
        ih (fun x hx => h x (List.mem_cons_of_mem a hx))]

/-- Walking a flat directory of extractable tag files in tag mode: exactly
the files whose identifier is free (no targets) or matches a target are
recorded, in order; the others are skipped without error. -/
theorem collect_tags_flat_files :
    ∀ (files : List (List Char × List Char)) (swIdOnly : Bool)
      (targets : List (List Char)) (path : List Char) (acc : List SwRecord),
      (∀ f ∈ files, (strstrIdx f.1 ".swidtag".data).isSome = true ∧
        (extract_sw_id f.2).isSome = true) →
      collect_tags swIdOnly targets path (flatFiles files) true acc
        = (true, acc ++ files.filterMap fun f =>
            if targets = [] ∨ (extract_sw_id f.2).getD [] ∈ targets
            then some (mkWalkRec swIdOnly path f.2) else none) := by
  intro files
  induction files with
  | nil =>
    intro swIdOnly targets path acc _
    simp [flatFiles, collect_tags]
  | cons f fs ih =>
    intro swIdOnly targets path acc h
    obtain ⟨n, c⟩ := f
    obtain ⟨hn, hx⟩ := h (n, c) (List.mem_cons_self _ fs)
    obtain ⟨swid, hsw⟩ := Option.isSome_iff_exists.mp hx
    have hgd : (extract_sw_id c).getD [] = swid := by rw [hsw]; rfl
    simp only [flatFiles, collect_tags]
    rw [if_neg (by simp), if_neg (by simp [hn]), hsw]
    show (if targets ≠ [] ∧ swid ∉ targets then
        collect_tags swIdOnly targets path (flatFiles fs) true acc
      else collect_tags swIdOnly targets path (flatFiles fs) true
        (acc ++ [⟨0, swid, swLocator path, SOURCE_ID_COLLECTOR,
                  if swIdOnly then none else some c⟩])) = _
    by_cases hmatch : targets = [] ∨ swid ∈ targets
    · have hcond : ¬(targets ≠ [] ∧ swid ∉ targets) := by
        rcases hmatch with he | hm
        · exact fun hc => hc.1 he
        · exact fun hc => hc.2 hm
      rw [if_neg hcond]
      rw [ih swIdOnly targets path _ (fun x hx => h x (List.mem_cons_of_mem _ hx))]
      rw [List.filterMap_cons]
      simp only [hgd]
      rw [if_pos hmatch]
      simp [mkWalkRec, hgd, List.append_assoc]
    · have hcond : targets ≠ [] ∧ swid ∉ targets := by
        constructor
        · intro he; exact hmatch (Or.inl he)
        · intro hm; exact hmatch (Or.inr hm)
      rw [if_pos hcond]
      rw [ih swIdOnly targets path _ (fun x hx => h x (List.mem_cons_of_mem _ hx))]
      rw [List.filterMap_cons]
      simp only [hgd]
      rw [if_neg hmatch]

/-- Walking a flat directory where a non-extractable tag file follows
extractable ones (no targets): the walk fails, the earlier records remain,
and the later files are not processed. -/
theorem collect_tags_flat_abort :
    ∀ (good : List (List Char × List Char)) (badn badc : List Char)
      (rest : List (List Char × List Char)) (swIdOnly : Bool)
      (path : List Char) (acc : List SwRecord),
      (∀ f ∈ good, (strstrIdx f.1 ".swidtag".data).isSome = true ∧
        (extract_sw_id f.2).isSome = true) →
      (strstrIdx badn ".swidtag".data).isSome = true →
      extract_sw_id badc = none →
      collect_tags swIdOnly [] path (flatFiles (good ++ (badn, badc) :: rest)) true acc
        = (false, acc ++ good.map fun f => mkWalkRec swIdOnly path f.2) := by
  intro good
  induction good with
  | nil =>
    intro badn badc rest swIdOnly path acc _ hbn hbx
    simp only [List.nil_append, flatFiles, collect_tags]
    rw [if_neg (by simp), if_neg (by simp [hbn]), hbx]
    simp
  | cons f fs ih =>
    intro badn badc rest swIdOnly path acc h hbn hbx
    obtain ⟨n, c⟩ := f
    obtain ⟨hn, hx⟩ := h (n, c) (List.mem_cons_self _ fs)
    obtain ⟨swid, hsw⟩ := Option.isSome_iff_exists.mp hx
    have hgd : (extract_sw_id c).getD [] = swid := by rw [hsw]; rfl
    simp only [List.cons_append, flatFiles, collect_tags]
    rw [if_neg (by simp), if_neg (by simp [hn]), hsw]
    show (if ([] : List (List Char)) ≠ [] ∧ swid ∉ ([] : List (List Char)) then
        collect_tags swIdOnly [] path (flatFiles (fs ++ (badn, badc) :: rest)) true acc
      else collect_tags swIdOnly [] path (flatFiles (fs ++ (badn, badc) :: rest)) true
        (acc ++ [⟨0, swid, swLocator path, SOURCE_ID_COLLECTOR,
                  if swIdOnly then none else some c⟩])) = _
    rw [if_neg (by intro hc; exact hc.1 rfl)]
    rw [ih badn badc rest swIdOnly path _
        (fun x hx => h x (List.mem_cons_of_mem _ hx)) hbn hbx]
    simp [mkWalkRec, hgd, List.append_assoc]

/-- C7: For every filesystem walk in tag mode with a non-empty TargetSet, a
tag file's record is added if and only if its extracted software_id equals
the software_id of at least one target — the walk over a flat tag
directory yields exactly the records whose identifier is a member of the
target set, in order, and non-matching files are skipped without error.
In particular, with targets `{"R__T1"}` and discovered identifiers
`{"R__T1", "R__T2"}`, only the `"R__T1"` record is kept. -/
theorem C7_collect_tags_target_filtering :
    (∀ (files : List (List Char × List Char)) (swIdOnly : Bool)
       (targets : List (List Char)) (path : List Char) (acc : List SwRecord),
      targets ≠ [] →
      (∀ f ∈ files, (strstrIdx f.1 ".swidtag".data).isSome = true ∧
        (extract_sw_id f.2).isSome = true) →
      collect_tags swIdOnly targets path (flatFiles files) true acc
        = (true, acc ++ files.filterMap fun f =>
            if (extract_sw_id f.2).getD [] ∈ targets
            then some (mkWalkRec swIdOnly path f.2) else none)) ∧
    collect_tags false ["R__T1".data] "p".data
      (flatFiles [("a.swidtag".data, "<a tagId=\"T1\" regid=\"R\"/>".data),
                  ("b.swidtag".data, "<b tagId=\"T2\" regid=\"R\"/>".data)]) true []
      = (true, [⟨0, "R__T1".data, [], SOURCE_ID_COLLECTOR,
                some "<a tagId=\"T1\" regid=\"R\"/>".data⟩]) := by
  constructor
  · intro files swIdOnly targets path acc hne h
    rw [collect_tags_flat_files files swIdOnly targets path acc h]
    rw [filterMap_congr_mem
        (fun f => if targets = [] ∨ (extract_sw_id f.2).getD [] ∈ targets
          then some (mkWalkRec swIdOnly path f.2) else none)
        (fun f => if (extract_sw_id f.2).getD [] ∈ targets
          then some (mkWalkRec swIdOnly path f.2) else none)
        files (fun a _ => by simp [hne])]
  · decide

/-- Witness for C7: one matching and no other file; the record appears
because its identifier is in the target set. -/
theorem C7_collect_tags_target_filtering_witness :
    collect_tags false ["R__X".data] "p".data
      (flatFiles [("f.swidtag".data, "<tagId=\"X\" regid=\"R\"/>".data)]) true []
      = (true, [] ++ [(("f.swidtag".data : List Char),
            ("<tagId=\"X\" regid=\"R\"/>".data : List Char))].filterMap
          fun f =>
            if (extract_sw_id f.2).getD [] ∈ [("R__X".data : List Char)]
            then some (mkWalkRec false "p".data f.2) else none) :=
  C7_collect_tags_target_filtering.1
    [("f.swidtag".data, "<tagId=\"X\" regid=\"R\"/>".data)]
    false ["R__X".data] "p".data [] (by decide) (by decide)

/-- C5: Within a single read, the first extraction failure aborts that read
and reports failure, but every record appended before the failing document
remains — first conjunct for the generator stream (`read_swid_tags` ends
with `NOT_FOUND`, keeping the records of the documents before the bad
one), second conjunct for the filesystem walk (`collect_tags` returns
failure, keeping the records of the files before the bad one; later files
are not processed).  There is no rollback of partial results. -/
theorem C5_no_rollback_on_failure :
    (∀ (good : List (List Char)) (bad : List Char) (acc : List SwRecord),
      docsOkB (good ++ [bad]) = true →
      (∀ d ∈ good, 1 < d.length ∧ (extract_sw_id (stripNl d)).isSome = true) →
      1 < bad.length →
      extract_sw_id (stripNl bad) = none →
      read_swid_tags (joinDocs (good ++ [bad])) acc
        = (Status.notFound, acc ++ good.map fun d =>
            ⟨0, (extract_sw_id (stripNl d)).getD [], [], SOURCE_ID_GENERATOR,
             some (stripNl d)⟩)) ∧
    (∀ (good : List (List Char × List Char)) (badn badc : List Char)
       (rest : List (List Char × List Char)) (swIdOnly : Bool)
       (path : List Char) (acc : List SwRecord),
      (∀ f ∈ good, (strstrIdx f.1 ".swidtag".data).isSome = true ∧
        (extract_sw_id f.2).isSome = true) →
      (strstrIdx badn ".swidtag".data).isSome = true →
      extract_sw_id badc = none →
      collect_tags swIdOnly [] path (flatFiles (good ++ (badn, badc) :: rest)) true acc
        = (false, acc ++ good.map fun f => mkWalkRec swIdOnly path f.2)) := by
  constructor
  · intro good bad acc hok h hblen hbx
    rw [read_swid_tags_joinDocs _ acc (by simp) hok]
    have hbad : (processDoc bad []).1 ≠ Status.success := by
      rw [processDoc_fail bad hblen hbx]
      simp
    rw [processDocs_abort good bad []
        (fun d hd => by rw [processDoc_big d (h d hd).1 (h d hd).2]) hbad acc]
    rw [processDoc_fail bad hblen hbx]
    rw [flatMap_eq_map_of_singleton _ _ good
        (fun d hd => by rw [processDoc_big d (h d hd).1 (h d hd).2])]
  · exact collect_tags_flat_abort

/-- Witness for C5: a good document followed by an unextractable one; the
read fails with `NOT_FOUND` but keeps the first record. -/
theorem C5_no_rollback_on_failure_witness :
    read_swid_tags (joinDocs ["<a tagId=\"T\" regid=\"R\"/>\n".data, "bad document\n".data]) []
      = (Status.notFound, [] ++ ["<a tagId=\"T\" regid=\"R\"/>\n".data].map fun d =>
          ⟨0, (extract_sw_id (stripNl d)).getD [], [], SOURCE_ID_GENERATOR,
           some (stripNl d)⟩) :=
  C5_no_rollback_on_failure.1 ["<a tagId=\"T\" regid=\"R\"/>\n".data]
    "bad document\n".data [] (by decide) (by decide) (by decide) (by decide)

/-! ## Generator invoker (`generate_tags`, lines 302–380)

`popen` is modelled as an oracle from the assembled command line to the
child's standard output (`none` models failure to start).  Alongside the
status and the collected records, the model returns the trace of command
lines passed to `popen`, so that "no external command is run" is
observable. -/

/-- The command line assembled for a target-less invocation (lines
313–323). -/
def genCommand (generator : List Char) (swIdOnly pretty full : Bool) : List Char :=
  if swIdOnly then generator ++ " software-id".data
  else generator ++ " swid --doc-separator '\n\n'".data
    ++ (if pretty then " --pretty".data else [])
    ++ (if full then " --full".data else [])

/-- The command line assembled for one target (lines 356–359). -/
def genTargetCommand (generator swId : List Char) (pretty full : Bool) : List Char :=
  generator ++ " swid --software-id ".data ++ swId
    ++ (if pretty then " --pretty".data else [])
    ++ (if full then " --full".data else [])

/-- Per-target loop (lines 345–377): one generator run per target; the
first failing target aborts the remaining ones, keeping the records
already collected. -/
def genTargetsLoop (generator : List Char) (pretty full : Bool)
    (popen : List Char → Option (List Char)) :
    List (List Char) → List SwRecord → List (List Char) →
      Status × List SwRecord × List (List Char)
  | [], acc, trace => (Status.success, acc, trace)
  | t :: ts, acc, trace =>
    let cmd := genTargetCommand generator t pretty full
    match popen cmd with
    | none => (Status.notSupported, acc, trace ++ [cmd])
    | some stream =>
      let r := read_swid_tags stream acc
      if r.1 = Status.success then genTargetsLoop generator pretty full popen ts r.2 (trace ++ [cmd])
      else (r.1, r.2, trace ++ [cmd])

/-- `generate_tags`: with no targets, one generator run feeding the
matching reader; with targets in full-tag mode, one run per target;
with targets in identifiers-only mode, nothing at all (the initialized
`SUCCESS` status is returned unchanged). -/
def generate_tags (swIdOnly : Bool) (generator : List Char) (pretty full : Bool)
    (targets : List (List Char)) (popen : List Char → Option (List Char))
    (acc : List SwRecord) : Status × List SwRecord × List (List Char) :=
  if targets = [] then
    let cmd := genCommand generator swIdOnly pretty full
    match popen cmd with
    | none => (Status.notSupported, acc, [cmd])
    | some stream =>
      if swIdOnly then
        let r := read_swid_tag_ids stream acc
        (r.1, r.2, [cmd])
      else
        let r := read_swid_tags stream acc
        (r.1, r.2, [cmd])
  else if swIdOnly = false then
    genTargetsLoop generator pretty full popen targets acc []
  else
    (Status.success, acc, [])

/-- C8: For every non-empty TargetSet in identifiers-only mode, the
Generator Invoker runs no external command, adds no records, and reports
success — a no-op.  Per-target generation happens only in full-tag mode
(second conjunct: with targets in full-tag mode the per-target loop runs,
starting with the first target's command). -/
theorem C8_generate_tags_targets_id_only_noop :
    (∀ (generator : List Char) (pretty full : Bool) (targets : List (List Char))
       (popen : List Char → Option (List Char)) (acc : List SwRecord),
      targets ≠ [] →
      generate_tags true generator pretty full targets popen acc
        = (Status.success, acc, [])) ∧
    (∀ (generator : List Char) (pretty full : Bool) (targets : List (List Char))
       (popen : List Char → Option (List Char)) (acc : List SwRecord),
      targets ≠ [] →
      generate_tags false generator pretty full targets popen acc
        = genTargetsLoop generator pretty full popen targets acc []) := by
  constructor
  · intro generator pretty full targets popen acc hne
    unfold generate_tags
    rw [if_neg hne, if_neg (by simp)]
  · intro generator pretty full targets popen acc hne
    unfold generate_tags
    rw [if_neg hne, if_pos rfl]

/-- Witness for C8: with one target and identifiers-only, no command is
run, no record added, and the result is success. -/
theorem C8_generate_tags_targets_id_only_noop_witness :
    generate_tags true "/usr/local/bin/swid_generator".data false false
      ["R__T".data] (fun _ => none) [] = (Status.success, [], []) :=
  C8_generate_tags_targets_id_only_noop.1 "/usr/local/bin/swid_generator".data
    false false ["R__T".data] (fun _ => none) [] (by decide)

/-! ## Orchestrator: `collect_inventory` (lines 518–563)

The persistent store is modelled as `db : Option (Option rows)`: the outer
option is the configured connection (`this->db`), the inner option the
outcome of the installed-identifier query (`none` = query failure,
`FAILED`).  The walker root is `directory : Option path` (`swid_directory`
unset disables discovery) together with the directory tree at that root. -/

/-- `retrieve_inventory` (lines 234–262): each row `(id, name, source)` of
the installed-identifier query becomes a record with the persisted source
code and no raw tag; a failed query is `FAILED`. -/
def retrieve_inventory (q : Option (List (Nat × List Char × Nat)))
    (acc : List SwRecord) : Status × List SwRecord :=
  match q with
  | none => (Status.failed, acc)
  | some rows =>
    (Status.success, acc ++ rows.map fun r => ⟨r.1, r.2.1, [], r.2.2, none⟩)

/-- `collect_inventory`: clears the inventory, runs source 1 (persisted
query when identifiers-only and a store is configured, otherwise the
generator), then unconditionally the filesystem walker over the configured
root, and returns the merged inventory exactly when source 1 succeeded
(the walker's boolean outcome is ignored). -/
def collect_inventory (swIdOnly : Bool)
    (db : Option (Option (List (Nat × List Char × Nat))))
    (generator : List Char) (pretty full : Bool) (targets : List (List Char))
    (popen : List Char → Option (List Char))
    (directory : Option (List Char)) (tree : Forest) : Option (List SwRecord) :=
  let s1 : Status × List SwRecord :=
    if swIdOnly && db.isSome then retrieve_inventory (db.getD none) []
    else
      let g := generate_tags swIdOnly generator pretty full targets popen []
      (g.1, g.2.1)
  let w : Bool × List SwRecord :=
    match directory with
    | none => (true, s1.2)
    | some root => collect_tags swIdOnly targets root tree false s1.2
  if s1.1 = Status.success then some w.2 else none

/-- C2: Source 1 is the persisted-store query exactly when identifiers-only
is requested and a store connection is configured (first conjunct), and
otherwise the generator invocation (second and third conjuncts); the
filesystem walker is applied afterwards to source 1's records; the call
returns the merged inventory if and only if source 1 succeeded (fourth
conjunct), and a walker failure neither changes that outcome nor is
surfaced — on source-1 success the walker's partial records are returned
even when the walk failed (fifth conjunct). -/
theorem C2_collect_inventory_orchestration :
    (∀ (q : Option (List (Nat × List Char × Nat))) (generator : List Char)
       (pretty full : Bool) (targets : List (List Char))
       (popen : List Char → Option (List Char)) (directory : Option (List Char))
       (tree : Forest),
      collect_inventory true (some q) generator pretty full targets popen directory tree
        = (if (retrieve_inventory q []).1 = Status.success
           then some (match directory with
             | none => (true, (retrieve_inventory q []).2)
             | some root =>
               collect_tags true targets root tree false (retrieve_inventory q []).2).2
           else none)) ∧
    (∀ (db : Option (Option (List (Nat × List Char × Nat)))) (generator : List Char)
       (pretty full : Bool) (targets : List (List Char))
       (popen : List Char → Option (List Char)) (directory : Option (List Char))
       (tree : Forest),
      collect_inventory false db generator pretty full targets popen directory tree
        = (if (generate_tags false generator pretty full targets popen []).1 = Status.success
           then some (match directory with
             | none => (true, (generate_tags false generator pretty full targets popen []).2.1)
             | some root => collect_tags false targets root tree false
                 (generate_tags false generator pretty full targets popen []).2.1).2
           else none)) ∧
    (∀ (swIdOnly : Bool) (generator : List Char) (pretty full : Bool)
       (targets : List (List Char)) (popen : List Char → Option (List Char))
       (directory : Option (List Char)) (tree : Forest),
      collect_inventory swIdOnly none generator pretty full targets popen directory tree
        = (if (generate_tags swIdOnly generator pretty full targets popen []).1 = Status.success
           then some (match directory with
             | none => (true, (generate_tags swIdOnly generator pretty full targets popen []).2.1)
             | some root => collect_tags swIdOnly targets root tree false
                 (generate_tags swIdOnly generator pretty full targets popen []).2.1).2
           else none)) ∧
    (∀ (swIdOnly : Bool) (db : Option (Option (List (Nat × List Char × Nat))))
       (generator : List Char) (pretty full : Bool) (targets : List (List Char))
       (popen : List Char → Option (List Char)) (directory : Option (List Char))
       (tree : Forest),
      (collect_inventory swIdOnly db generator pretty full targets popen directory tree).isSome
        = decide ((if swIdOnly && db.isSome then (retrieve_inventory (db.getD none) []).1
            else (generate_tags swIdOnly generator pretty full targets popen []).1)
          = Status.success)) ∧
    (∀ (q : List (Nat × List Char × Nat)) (generator : List Char)
       (pretty full : Bool) (targets : List (List Char))
       (popen : List Char → Option (List Char)) (root : List Char) (tree : Forest),
      (collect_tags true targets root tree false (retrieve_inventory (some q) []).2).1 = false →
      collect_inventory true (some (some q)) generator pretty full targets popen
          (some root) tree
        = some (collect_tags true targets root tree false
            (retrieve_inventory (some q) []).2).2) := by
  refine ⟨?_, ?_, ?_, ?_, ?_⟩
  · intro q generator pretty full targets popen directory tree
    unfold collect_inventory
    simp only [Bool.and_self, Option.isSome_some, Bool.and_true, if_pos rfl,
      Option.getD_some]
    cases directory <;> rfl
  · intro db generator pretty full targets popen directory tree
    unfold collect_inventory
    simp only [Bool.false_and, Bool.and_eq_true]
    cases directory <;> rfl
  · intro swIdOnly generator pretty full targets popen directory tree
    unfold collect_inventory
    simp only [Option.isSome_none, Bool.and_false]
    cases directory <;> rfl
  · intro swIdOnly db generator pretty full targets popen directory tree
    unfold collect_inventory
    cases hc : swIdOnly && db.isSome
    · by_cases hx : (generate_tags swIdOnly generator pretty full targets popen []).1
          = Status.success <;> simp [hc, hx]
    · by_cases hx : (retrieve_inventory (db.getD none) []).1 = Status.success <;>
        simp [hc, hx]
  · intro q generator pretty full targets popen root tree hfail
    unfold collect_inventory
    simp [retrieve_inventory]

/-- Witness for C2: source 1 (persisted query) succeeds with one record;
the walker fails on a garbage tag file, yet the call returns the
source-1 record — the walker failure is not surfaced. -/
theorem C2_collect_inventory_orchestration_witness :
    (collect_tags true [] "r".data
        (Forest.dir "swidtag".data
          (Forest.file "x.swidtag".data "garbage".data Forest.nil) Forest.nil)
        false (retrieve_inventory (some [(1, "R__T".data, 3)]) []).2).1 = false ∧
    collect_inventory true (some (some [(1, "R__T".data, 3)])) "gen".data false false
        [] (fun _ => none) (some "r".data)
        (Forest.dir "swidtag".data
          (Forest.file "x.swidtag".data "garbage".data Forest.nil) Forest.nil)
      = some (collect_tags true [] "r".data
          (Forest.dir "swidtag".data
            (Forest.file "x.swidtag".data "garbage".data Forest.nil) Forest.nil)
          false (retrieve_inventory (some [(1, "R__T".data, 3)]) []).2).2 :=
  ⟨by decide,
   C2_collect_inventory_orchestration.2.2.2.2 [(1, "R__T".data, 3)] "gen".data
     false false [] (fun _ => none) "r".data
     (Forest.dir "swidtag".data
       (Forest.file "x.swidtag".data "garbage".data Forest.nil) Forest.nil)
     (by decide)⟩

/-! ## Orchestrator: `collect_events` (lines 565–580) with
`retrieve_events` (lines 264–300)

The store's event query is
`SELECT ... WHERE s.eid >= ? ORDER BY s.eid, i.name, s.action ASC` with the
placeholder bound to the previous watermark (`targets->get_eid`).
Modelled from the spec for the store engine (which is outside the given
sources): §4.6 — "all events with `event_id ≥ watermark`, ordered by
`(event_id, name, action)`" — i.e. the query result is the filter of the
event rows by `watermark ≤ eid`, sorted lexicographically by
`(eid, name, action)`. -/

/-- One row of the event join: `(e.id, e.timestamp, i.id, i.name, i.source,
s.action)`. -/
structure EvRow where
  eid : Nat
  ts : List Char
  rid : Nat
  name : List Char
  source : Nat
  action : Nat
deriving Repr, DecidableEq

/-- The `ORDER BY s.eid, i.name, s.action ASC` sort key. -/
def evKey (r : EvRow) : Lex (Nat × Lex (List Char × Nat)) :=
  toLex (r.eid, toLex (r.name, r.action))

/-- Comparison used to model the SQL ordering. -/
def evLE (a b : EvRow) : Bool := decide (evKey a ≤ evKey b)

/-- The event query: rows with `earliest ≤ eid`, sorted by
`(eid, name, action)`. -/
def sw_events_query (rows : List EvRow) (earliest : Nat) : List EvRow :=
  (rows.filter fun r => decide (earliest ≤ r.eid)).mergeSort evLE

/-- A `swima_event_t`: event id, timestamp, action, record. -/
structure SwEvent where
  eid : Nat
  ts : List Char
  action : Nat
  record : SwRecord
deriving Repr, DecidableEq

/-- `retrieve_events`: maps each row of the event query, starting from the
targets' watermark, to an event joined with its record; a failed query is
`FAILED`. -/
def retrieve_events (q : Option (List EvRow)) (earliest : Nat) :
    Status × List SwEvent :=
  match q with
  | none => (Status.failed, [])
  | some rows =>
    (Status.success, (sw_events_query rows earliest).map fun r =>
      ⟨r.eid, r.ts, r.action, ⟨r.rid, r.name, [], r.source, none⟩⟩)

/-- `collect_events`: `NULL` unless identifiers-only is requested and a
store connection is configured; otherwise the event log is reinitialized
(the previous events play no role) and the event query from the previous
watermark produces the result. -/
def collect_events (swIdOnly : Bool) (db : Option (Option (List EvRow)))
    (targetsEid : Nat) (_prevEvents : List SwEvent) : Option (List SwEvent) :=
  if swIdOnly && db.isSome then
    let r := retrieve_events (db.getD none) targetsEid
    if r.1 = Status.success then some r.2 else none
  else none

theorem evLE_trans (a b c : EvRow) (hab : evLE a b = true) (hbc : evLE b c = true) :
    evLE a c = true := by
  unfold evLE at *
  rw [decide_eq_true_iff] at *
  exact le_trans hab hbc

theorem evLE_total (a b : EvRow) : (evLE a b || evLE b a) = true := by
  rcases le_total (evKey a) (evKey b) with h | h <;> simp [evLE, h]

/-- C6: `collect_events` returns "unavailable" (`NULL`) whenever
identifiers-only is not requested or no store connection is configured
(first and second conjuncts); a failed query also yields `NULL` (third
conjunct); otherwise the result is exactly the mapped event query (fourth
conjunct, the cleared previous event log playing no role), whose rows all
have `event_id ≥` the previous watermark (fifth conjunct), ordered by
`(event_id, name, action)` (sixth conjunct), and which are exactly the
rows passing the watermark filter (seventh conjunct). -/
theorem C6_collect_events_spec :
    (∀ (db : Option (Option (List EvRow))) (te : Nat) (prev : List SwEvent),
      collect_events false db te prev = none) ∧
    (∀ (swIdOnly : Bool) (te : Nat) (prev : List SwEvent),
      collect_events swIdOnly none te prev = none) ∧
    (∀ (te : Nat) (prev : List SwEvent),
      collect_events true (some none) te prev = none) ∧
    (∀ (rows : List EvRow) (te : Nat) (prev : List SwEvent),
      collect_events true (some (some rows)) te prev
        = some ((sw_events_query rows te).map fun r =>
            ⟨r.eid, r.ts, r.action, ⟨r.rid, r.name, [], r.source, none⟩⟩)) ∧
    (∀ (rows : List EvRow) (te : Nat), ∀ r ∈ sw_events_query rows te, te ≤ r.eid) ∧
    (∀ (rows : List EvRow) (te : Nat),
      (sw_events_query rows te).Pairwise (fun a b => evLE a b = true)) ∧
    (∀ (rows : List EvRow) (te : Nat),
      (sw_events_query rows te).Perm (rows.filter fun r => decide (te ≤ r.eid))) := by
  refine ⟨fun db te prev => rfl, ?_, fun te prev => rfl, fun rows te prev => rfl, ?_, ?_, ?_⟩
  · intro swIdOnly te prev
    unfold collect_events
    simp
  · intro rows te r hr
    unfold sw_events_query at hr
    have hmem : r ∈ rows.filter fun r => decide (te ≤ r.eid) :=
      (List.mergeSort_perm _ evLE).mem_iff.mp hr
    have := List.of_mem_filter hmem
    simpa using this
  · intro rows te
    have h := List.sorted_mergeSort evLE_trans evLE_total
      (rows.filter fun r => decide (te ≤ r.eid))
    unfold sw_events_query
    simpa using h
  · intro rows te
    exact List.mergeSort_perm _ evLE

/-- Witness for C6: a three-row store with watermark 2 returns the two
events with id ≥ 2 in `(eid, name, action)` order; the membership conjunct
is applied at the first returned row. -/
theorem C6_collect_events_spec_witness :
    collect_events true
      (some (some [⟨3, "t3".data, 7, "b".data, 1, 1⟩, ⟨1, "t1".data, 5, "a".data, 1, 1⟩,
                   ⟨2, "t2".data, 6, "a".data, 1, 2⟩])) 2 []
      = some ((sw_events_query
          [⟨3, "t3".data, 7, "b".data, 1, 1⟩, ⟨1, "t1".data, 5, "a".data, 1, 1⟩,
           ⟨2, "t2".data, 6, "a".data, 1, 2⟩] 2).map fun r =>
            ⟨r.eid, r.ts, r.action, ⟨r.rid, r.name, [], r.source, none⟩⟩) ∧
    2 ≤ (⟨2, "t2".data, 6, "a".data, 1, 2⟩ : EvRow).eid :=
  ⟨C6_collect_events_spec.2.2.2.1
     [⟨3, "t3".data, 7, "b".data, 1, 1⟩, ⟨1, "t1".data, 5, "a".data, 1, 1⟩,
      ⟨2, "t2".data, 6, "a".data, 1, 2⟩] 2 [],
   C6_collect_events_spec.2.2.2.2.1
     [⟨3, "t3".data, 7, "b".data, 1, 1⟩, ⟨1, "t1".data, 5, "a".data, 1, 1⟩,
      ⟨2, "t2".data, 6, "a".data, 1, 2⟩] 2 ⟨2, "t2".data, 6, "a".data, 1, 2⟩
     ((List.mergeSort_perm _ evLE).mem_iff.mpr (by decide))⟩

end Swima

namespace Gmalg

/-- `set_private_key` (gmalg_ec_diffie_hellman.c, lines 111–121): `ret` is
initialized to `FALSE`; a length mismatch only emits a debug message; the
key bytes are copied unconditionally (`memcpy` of `ECCref_MAX_LEN` bytes —
here the `maxLen`-byte prefix of the supplied value, `ECCref_MAX_LEN`
being a parameter since it comes from the external gmalg header); `ret` is
returned without ever having been set to `TRUE`.  The result is the
returned boolean and the new private-key contents. -/
def set_private_key (maxLen : Nat) (value : List Nat) : Bool × List Nat :=
  (false, value.take maxLen)

/-- C10: `set_private_key` returns `FALSE` for every input (first
conjunct), including a value of exactly the expected key length whose
bytes were successfully copied into the private key (second conjunct) —
the success return path is unreachable. -/
theorem C10_set_private_key_always_false :
    (∀ (maxLen : Nat) (value : List Nat),
      (set_private_key maxLen value).1 = false) ∧
    (∀ (maxLen : Nat) (value : List Nat), value.length = maxLen →
      set_private_key maxLen value = (false, value)) := by
  constructor
  · intro _ _; rfl
  · intro maxLen value h
    unfold set_private_key
    rw [← h, List.take_length]

/-- Witness for C10: a 32-byte value is copied in full, yet the call
reports failure. -/
theorem C10_set_private_key_always_false_witness :
    set_private_key 32 (List.replicate 32 0) = (false, List.replicate 32 0) :=
  C10_set_private_key_always_false.2 32 (List.replicate 32 0) (by decide)

end Gmalg
